import Mathlib

/-!
Verification development for the multi-template paginated document layout
engine of the tool-pre-selection repository.

The repository source (`src/paper/generate_vector_paper.py`) is a script that
builds the paper's content blocks and page templates and hands them to the
platypus document-flow machinery; the flow engine itself (frames, page
templates, the scheduler) is not part of the repository sources, so it is
modelled here from the specification (each such definition is marked
"Modelled from the spec"). The geometry of the registered frames and the
element-building loop of `main` are translated directly from the source.
-/

namespace ToolPre

/-- Modelled from the spec (§3 ContentBlock): the typed unit of content.
List items are modelled as paragraph payloads (text plus style reference),
which is how the source builds every list (`ListItem(Paragraph(item, style))`). -/
inductive Block where
  | heading (level : Nat) (text : String) (styleRef : String)
  | par (text : String) (styleRef : String)
  | listB (ordered : Bool) (items : List (String × String)) (styleRef : String)
  | pre (text : String) (styleRef : String)
  | spacer (h : Nat)
  | pageBreak
  | templateSwitch (name : String)
  deriving DecidableEq, Repr

/-- Modelled from the spec (§3 Frame): name, position, width, height. -/
structure FrameSpec where
  id : String
  x : Nat
  y : Nat
  width : Nat
  height : Nat
  deriving DecidableEq, Repr

/-- Modelled from the spec (§3 PageTemplate): a name and an ordered list of
frames (the order defines fill precedence). -/
structure Template where
  name : String
  frames : List FrameSpec
  deriving DecidableEq, Repr

/-- Modelled from the spec (§6 measurement boundary): an opaque measurement
capability. `height b w` estimates the vertical extent of block `b` at
available width `w`; `split b w avail` optionally splits a splittable block's
text into a consumed part and a remainder, with the consumed height. -/
structure Measure where
  height : Block → Nat → Nat
  split : Block → Nat → Nat → Option (String × String × Nat)

/-- A frame together with its mutable flow state: remaining vertical capacity
and the blocks placed into it so far (in order). -/
structure FrameState where
  spec : FrameSpec
  remaining : Int
  placed : List Block
  deriving DecidableEq, Repr

/-- A frame freshly reset to full capacity (spec §4.2 startPage). -/
def freshFrame (f : FrameSpec) : FrameState :=
  ⟨f, (f.height : Int), []⟩

/-- The page being filled: its template name, its frames in registration
order with their flow state, and the index of the frame currently receiving
content. A finished page is an emitted value of this same type. -/
structure PageState where
  templateName : String
  frames : List FrameState
  idx : Nat
  deriving DecidableEq, Repr

/-- Modelled from the spec (§7): the error kinds of the flow engine. -/
inductive FlowError where
  | unknownTemplate (name : String)
  | blockTooLarge (b : Block)
  | emptyTemplate (name : String)
  deriving DecidableEq, Repr

/-- Template-registry lookup by name (spec §6 template registry boundary). -/
def findTemplate (reg : List Template) (n : String) : Option Template :=
  reg.find? (fun t => t.name == n)

/-- Modelled from the spec (§4.2): start a page with the named template,
returning its frames in registration order, each reset to full capacity. -/
def startPage (reg : List Template) (n : String) : Option PageState :=
  (findTemplate reg n).map fun t => ⟨n, t.frames.map freshFrame, 0⟩

/-- Modelled from the spec (§4.1): `tryPlace` commits a full placement when
the measured height fits within remaining capacity and decrements the
remaining height; otherwise it signals does-not-fit without any change. -/
def tryPlace (M : Measure) (fr : FrameState) (b : Block) : Option FrameState :=
  if (M.height b fr.spec.width : Int) ≤ fr.remaining then
    some { fr with remaining := fr.remaining - (M.height b fr.spec.width : Int),
                   placed := fr.placed ++ [b] }
  else none

/-- Modelled from the spec (§4.1): only Paragraph and Preformatted blocks may
be partially consumed. The engine validates the measurement boundary's split:
the consumed text must be nonempty, consumed and remainder must concatenate
to the original text, and the consumed height must fit the remaining
capacity; otherwise the split is treated as does-not-fit. -/
def trySplit (M : Measure) (fr : FrameState) (b : Block) : Option (FrameState × Block) :=
  match b with
  | .par t s =>
    match M.split (.par t s) fr.spec.width fr.remaining.toNat with
    | some (c, r, ch) =>
      if c ≠ "" ∧ c ++ r = t ∧ (ch : Int) ≤ fr.remaining then
        some ({ fr with remaining := fr.remaining - ch, placed := fr.placed ++ [.par c s] },
              .par r s)
      else none
    | none => none
  | .pre t s =>
    match M.split (.pre t s) fr.spec.width fr.remaining.toNat with
    | some (c, r, ch) =>
      if c ≠ "" ∧ c ++ r = t ∧ (ch : Int) ≤ fr.remaining then
        some ({ fr with remaining := fr.remaining - ch, placed := fr.placed ++ [.pre c s] },
              .pre r s)
      else none
    | none => none
  | _ => none

/-- Replace the current frame of a page, leaving the frame index unchanged. -/
def setFrame (pg : PageState) (fr : FrameState) : PageState :=
  { pg with frames := pg.frames.set pg.idx fr }

/-- Size of a block for the engine's termination measure: splittable blocks
are measured by their text length, so a validated split strictly shrinks. -/
def sizeB : Block → Nat
  | .par t _ => t.length + 1
  | .pre t _ => t.length + 1
  | _ => 1

/-- Total size of a block stream. -/
def sizeL (bs : List Block) : Nat :=
  (bs.map sizeB).sum

theorem sizeB_pos (b : Block) : 0 < sizeB b := by
  cases b <;> simp [sizeB]

theorem sizeL_cons (b : Block) (bs : List Block) :
    sizeL (b :: bs) = sizeB b + sizeL bs := by
  simp [sizeL]

theorem String.length_pos_of_ne (s : String) (h : s ≠ "") : 0 < s.length := by
  cases s with
  | mk l =>
    cases l with
    | nil => exact absurd rfl h
    | cons c cs => simp [String.length]

/-- Exact description of a successful `trySplit`. -/
theorem trySplit_eq_some {M : Measure} {fr : FrameState} {b : Block}
    {fr2 : FrameState} {rem : Block}
    (h : trySplit M fr b = some (fr2, rem)) :
    ∃ (t s c r : String) (ch : Nat),
      c ≠ "" ∧ c ++ r = t ∧ (ch : Int) ≤ fr.remaining ∧
      ((b = .par t s ∧ M.split (.par t s) fr.spec.width fr.remaining.toNat = some (c, r, ch) ∧
        fr2 = { fr with remaining := fr.remaining - ch, placed := fr.placed ++ [.par c s] } ∧
        rem = .par r s) ∨
       (b = .pre t s ∧ M.split (.pre t s) fr.spec.width fr.remaining.toNat = some (c, r, ch) ∧
        fr2 = { fr with remaining := fr.remaining - ch, placed := fr.placed ++ [.pre c s] } ∧
        rem = .pre r s)) := by
  cases b <;> simp only [trySplit] at h <;> try exact Option.noConfusion h
  case par t s =>
    split at h
    case h_2 => exact Option.noConfusion h
    case h_1 c r ch hsp =>
      split at h
      case isFalse => exact Option.noConfusion h
      case isTrue hg =>
        obtain ⟨hf, hr⟩ := Prod.mk.injEq .. ▸ Option.some.inj h
        exact ⟨t, s, c, r, ch, hg.1, hg.2.1, hg.2.2, Or.inl ⟨rfl, hsp, hf.symm, hr.symm⟩⟩
  case pre t s =>
    split at h
    case h_2 => exact Option.noConfusion h
    case h_1 c r ch hsp =>
      split at h
      case isFalse => exact Option.noConfusion h
      case isTrue hg =>
        obtain ⟨hf, hr⟩ := Prod.mk.injEq .. ▸ Option.some.inj h
        exact ⟨t, s, c, r, ch, hg.1, hg.2.1, hg.2.2, Or.inr ⟨rfl, hsp, hf.symm, hr.symm⟩⟩

/-- A validated split strictly shrinks the block size. -/
theorem trySplit_sizeB {M : Measure} {fr : FrameState} {b : Block}
    {fr2 : FrameState} {rem : Block}
    (h : trySplit M fr b = some (fr2, rem)) : sizeB rem < sizeB b := by
  obtain ⟨t, s, c, r, ch, hc, hcat, -, hcase⟩ := trySplit_eq_some h
  have hlen : t.length = c.length + r.length := by
    rw [← hcat]; exact String.length_append c r
  have hcpos : 0 < c.length := String.length_pos_of_ne c hc
  rcases hcase with ⟨hb, -, -, hrem⟩ | ⟨hb, -, -, hrem⟩ <;> subst hb <;> subst hrem <;>
    simp [sizeB] <;> omega

/-- Modelled from the spec (§4.3 Document Flow Engine): the core scheduler.
Arguments: the measurement capability, the template registry, the default
template name, then the remaining block stream, the pending next-page
template override, the page currently being filled (`none` before the first
page starts), the bounded fresh-page retry flag of §4.3 step 6 / §5, and the
finished pages emitted so far. -/
def flowAux (M : Measure) (reg : List Template) (dflt : String) :
    List Block → Option String → Option PageState → Bool → List PageState →
    Except FlowError (List PageState)
  | [], _, cur, _, out => .ok (out ++ cur.toList)
  | .templateSwitch n :: rest, _, cur, retried, out =>
    if (findTemplate reg n).isSome then
      flowAux M reg dflt rest (some n) cur retried out
    else .error (.unknownTemplate n)
  | b :: rest, pending, none, _, out =>
    match startPage reg (pending.getD dflt) with
    | none => .error (.unknownTemplate (pending.getD dflt))
    | some pg => flowAux M reg dflt (b :: rest) none (some pg) false out
  | .pageBreak :: rest, pending, some pg, _, out =>
    match startPage reg (pending.getD pg.templateName) with
    | none => .error (.unknownTemplate (pending.getD pg.templateName))
    | some pg2 => flowAux M reg dflt rest none (some pg2) false (out ++ [pg])
  | b :: rest, pending, some pg, retried, out =>
    match hfr : pg.frames[pg.idx]? with
    | none =>
      if retried then .error (.blockTooLarge b)
      else
        match startPage reg (pending.getD pg.templateName) with
        | none => .error (.unknownTemplate (pending.getD pg.templateName))
        | some pg2 => flowAux M reg dflt (b :: rest) none (some pg2) true (out ++ [pg])
    | some fr =>
      match tryPlace M fr b with
      | some fr2 => flowAux M reg dflt rest pending (some (setFrame pg fr2)) false out
      | none =>
        match hsp : trySplit M fr b with
        | some (fr2, rem) =>
          flowAux M reg dflt (rem :: rest) pending
            (some { setFrame pg fr2 with idx := pg.idx + 1 }) false out
        | none =>
          flowAux M reg dflt (b :: rest) pending
            (some { pg with idx := pg.idx + 1 }) retried out
  termination_by bs _ cur retried _ =>
    (sizeL bs,
     (match cur with | none => 1 | some _ => 0),
     (if retried then 0 else 1),
     (match cur with | none => 0 | some pg => pg.frames.length - pg.idx))
  decreasing_by
  · apply Prod.Lex.left
    have := sizeB_pos (Block.templateSwitch n)
    simp [sizeL_cons]; omega
  · apply Prod.Lex.right
    apply Prod.Lex.left
    omega
  · apply Prod.Lex.left
    have := sizeB_pos Block.pageBreak
    simp [sizeL_cons]; omega
  · apply Prod.Lex.right
    apply Prod.Lex.right
    apply Prod.Lex.left
    simp_all
  · apply Prod.Lex.left
    have := sizeB_pos b
    simp [sizeL_cons]; omega
  · apply Prod.Lex.left
    have := trySplit_sizeB hsp
    simp [sizeL_cons]; omega
  · apply Prod.Lex.right
    apply Prod.Lex.right
    apply Prod.Lex.right
    have : pg.idx < pg.frames.length := by
      rcases List.getElem?_eq_some_iff.mp hfr with ⟨hlt, _⟩
      exact hlt
    simp; omega

/-- Whether a block is the template-switch directive. -/
def isSwitch : Block → Bool
  | .templateSwitch _ => true
  | _ => false

/-- Whether a block is the explicit page-break directive. -/
def isBreak : Block → Bool
  | .pageBreak => true
  | _ => false

/-- A block that consumes frame space (neither directive). -/
def isContent (b : Block) : Prop :=
  isSwitch b = false ∧ isBreak b = false

theorem flowAux_nil (M : Measure) (reg : List Template) (dflt : String)
    (p : Option String) (cur : Option PageState) (r : Bool) (out : List PageState) :
    flowAux M reg dflt [] p cur r out = .ok (out ++ cur.toList) := by
  rw [flowAux.eq_def]

theorem flowAux_switch_ok (M : Measure) (reg : List Template) (dflt : String)
    (n : String) (rest : List Block) (p : Option String) (cur : Option PageState)
    (r : Bool) (out : List PageState) (h : (findTemplate reg n).isSome) :
    flowAux M reg dflt (.templateSwitch n :: rest) p cur r out =
      flowAux M reg dflt rest (some n) cur r out := by
  rw [flowAux.eq_def]
  simp [h]

theorem flowAux_switch_err (M : Measure) (reg : List Template) (dflt : String)
    (n : String) (rest : List Block) (p : Option String) (cur : Option PageState)
    (r : Bool) (out : List PageState) (h : findTemplate reg n = none) :
    flowAux M reg dflt (.templateSwitch n :: rest) p cur r out =
      .error (.unknownTemplate n) := by
  rw [flowAux.eq_def]
  simp [h]

theorem flowAux_start (M : Measure) (reg : List Template) (dflt : String)
    (b : Block) (rest : List Block) (p : Option String) (r : Bool)
    (out : List PageState) (pg : PageState)
    (hb : isSwitch b = false) (hsp : startPage reg (p.getD dflt) = some pg) :
    flowAux M reg dflt (b :: rest) p none r out =
      flowAux M reg dflt (b :: rest) none (some pg) false out := by
  rw [flowAux.eq_def]
  cases b <;> simp [isSwitch] at hb <;> simp [hsp]

theorem flowAux_start_err (M : Measure) (reg : List Template) (dflt : String)
    (b : Block) (rest : List Block) (p : Option String) (r : Bool)
    (out : List PageState)
    (hb : isSwitch b = false) (hsp : startPage reg (p.getD dflt) = none) :
    flowAux M reg dflt (b :: rest) p none r out =
      .error (.unknownTemplate (p.getD dflt)) := by
  rw [flowAux.eq_def]
  cases b <;> simp [isSwitch] at hb <;> simp [hsp]

theorem flowAux_break (M : Measure) (reg : List Template) (dflt : String)
    (rest : List Block) (p : Option String) (pg : PageState) (r : Bool)
    (out : List PageState) (pg2 : PageState)
    (hsp : startPage reg (p.getD pg.templateName) = some pg2) :
    flowAux M reg dflt (.pageBreak :: rest) p (some pg) r out =
      flowAux M reg dflt rest none (some pg2) false (out ++ [pg]) := by
  rw [flowAux.eq_def]
  simp [hsp]

theorem flowAux_break_err (M : Measure) (reg : List Template) (dflt : String)
    (rest : List Block) (p : Option String) (pg : PageState) (r : Bool)
    (out : List PageState)
    (hsp : startPage reg (p.getD pg.templateName) = none) :
    flowAux M reg dflt (.pageBreak :: rest) p (some pg) r out =
      .error (.unknownTemplate (p.getD pg.templateName)) := by
  rw [flowAux.eq_def]
  simp [hsp]

theorem flowAux_exhaust_retried (M : Measure) (reg : List Template) (dflt : String)
    (b : Block) (rest : List Block) (p : Option String) (pg : PageState)
    (out : List PageState)
    (hb : isSwitch b = false) (hbr : isBreak b = false)
    (hfr : pg.frames[pg.idx]? = none) :
    flowAux M reg dflt (b :: rest) p (some pg) true out =
      .error (.blockTooLarge b) := by
  rw [flowAux.eq_def]
  cases b <;> simp [isSwitch] at hb <;> simp [isBreak] at hbr <;> dsimp only <;>
    (split <;> simp_all)

theorem flowAux_roll (M : Measure) (reg : List Template) (dflt : String)
    (b : Block) (rest : List Block) (p : Option String) (pg : PageState)
    (out : List PageState) (pg2 : PageState)
    (hb : isSwitch b = false) (hbr : isBreak b = false)
    (hfr : pg.frames[pg.idx]? = none)
    (hsp : startPage reg (p.getD pg.templateName) = some pg2) :
    flowAux M reg dflt (b :: rest) p (some pg) false out =
      flowAux M reg dflt (b :: rest) none (some pg2) true (out ++ [pg]) := by
  rw [flowAux.eq_def]
  cases b <;> simp [isSwitch] at hb <;> simp [isBreak] at hbr <;> dsimp only <;>
    (split <;> simp_all)

theorem flowAux_roll_err (M : Measure) (reg : List Template) (dflt : String)
    (b : Block) (rest : List Block) (p : Option String) (pg : PageState)
    (out : List PageState)
    (hb : isSwitch b = false) (hbr : isBreak b = false)
    (hfr : pg.frames[pg.idx]? = none)
    (hsp : startPage reg (p.getD pg.templateName) = none) :
    flowAux M reg dflt (b :: rest) p (some pg) false out =
      .error (.unknownTemplate (p.getD pg.templateName)) := by
  rw [flowAux.eq_def]
  cases b <;> simp [isSwitch] at hb <;> simp [isBreak] at hbr <;> dsimp only <;>
    (split <;> simp_all)

theorem flowAux_place (M : Measure) (reg : List Template) (dflt : String)
    (b : Block) (rest : List Block) (p : Option String) (pg : PageState) (r : Bool)
    (out : List PageState) (fr fr2 : FrameState)
    (hb : isSwitch b = false) (hbr : isBreak b = false)
    (hfr : pg.frames[pg.idx]? = some fr) (hpl : tryPlace M fr b = some fr2) :
    flowAux M reg dflt (b :: rest) p (some pg) r out =
      flowAux M reg dflt rest p (some (setFrame pg fr2)) false out := by
  rw [flowAux.eq_def]
  cases b <;> simp [isSwitch] at hb <;> simp [isBreak] at hbr <;> dsimp only <;>
    (split <;> simp_all)

theorem flowAux_split (M : Measure) (reg : List Template) (dflt : String)
    (b : Block) (rest : List Block) (p : Option String) (pg : PageState) (r : Bool)
    (out : List PageState) (fr fr2 : FrameState) (rem : Block)
    (hb : isSwitch b = false) (hbr : isBreak b = false)
    (hfr : pg.frames[pg.idx]? = some fr) (hpl : tryPlace M fr b = none)
    (hspl : trySplit M fr b = some (fr2, rem)) :
    flowAux M reg dflt (b :: rest) p (some pg) r out =
      flowAux M reg dflt (rem :: rest) p
        (some { setFrame pg fr2 with idx := pg.idx + 1 }) false out := by
  rw [flowAux.eq_def]
  cases b <;> simp [isSwitch] at hb <;> simp [isBreak] at hbr <;> dsimp only <;>
    (split <;> simp_all) <;> (split <;> simp_all)

theorem flowAux_advance (M : Measure) (reg : List Template) (dflt : String)
    (b : Block) (rest : List Block) (p : Option String) (pg : PageState) (r : Bool)
    (out : List PageState) (fr : FrameState)
    (hb : isSwitch b = false) (hbr : isBreak b = false)
    (hfr : pg.frames[pg.idx]? = some fr) (hpl : tryPlace M fr b = none)
    (hspl : trySplit M fr b = none) :
    flowAux M reg dflt (b :: rest) p (some pg) r out =
      flowAux M reg dflt (b :: rest) p (some { pg with idx := pg.idx + 1 }) r out := by
  rw [flowAux.eq_def]
  cases b <;> simp [isSwitch] at hb <;> simp [isBreak] at hbr <;> dsimp only <;>
    (split <;> simp_all) <;> (split <;> simp_all)

/-- Modelled from the spec (§4.3): run the engine from the initial state
(`NoPageStarted`, no pending override, no pages emitted). -/
def flow (M : Measure) (reg : List Template) (dflt : String)
    (blocks : List Block) : Except FlowError (List PageState) :=
  flowAux M reg dflt blocks none none false []

theorem isSwitch_eq_false {b : Block} (hb : ∀ n, b = Block.templateSwitch n → False) :
    isSwitch b = false := by
  cases b <;> first | rfl | exact absurd rfl (hb _)

theorem isBreak_eq_false {b : Block} (hbr : b = Block.pageBreak → False) :
    isBreak b = false := by
  cases b <;> first | rfl | exact absurd rfl hbr

/-- Fuel-bounded executable twin of `flowAux`, used to evaluate the engine on
concrete inputs by kernel reduction; `flowFuel_sound` transfers its results
to `flowAux`. -/
def flowFuel (M : Measure) (reg : List Template) (dflt : String) :
    Nat → List Block → Option String → Option PageState → Bool → List PageState →
    Option (Except FlowError (List PageState))
  | 0, _, _, _, _, _ => none
  | _ + 1, [], _, cur, _, out => some (.ok (out ++ cur.toList))
  | fuel + 1, .templateSwitch n :: rest, _, cur, retried, out =>
    if (findTemplate reg n).isSome then
      flowFuel M reg dflt fuel rest (some n) cur retried out
    else some (.error (.unknownTemplate n))
  | fuel + 1, b :: rest, pending, none, _, out =>
    match startPage reg (pending.getD dflt) with
    | none => some (.error (.unknownTemplate (pending.getD dflt)))
    | some pg => flowFuel M reg dflt fuel (b :: rest) none (some pg) false out
  | fuel + 1, .pageBreak :: rest, pending, some pg, _, out =>
    match startPage reg (pending.getD pg.templateName) with
    | none => some (.error (.unknownTemplate (pending.getD pg.templateName)))
    | some pg2 => flowFuel M reg dflt fuel rest none (some pg2) false (out ++ [pg])
  | fuel + 1, b :: rest, pending, some pg, retried, out =>
    match pg.frames[pg.idx]? with
    | none =>
      if retried then some (.error (.blockTooLarge b))
      else
        match startPage reg (pending.getD pg.templateName) with
        | none => some (.error (.unknownTemplate (pending.getD pg.templateName)))
        | some pg2 => flowFuel M reg dflt fuel (b :: rest) none (some pg2) true (out ++ [pg])
    | some fr =>
      match tryPlace M fr b with
      | some fr2 => flowFuel M reg dflt fuel rest pending (some (setFrame pg fr2)) false out
      | none =>
        match trySplit M fr b with
        | some (fr2, rem) =>
          flowFuel M reg dflt fuel (rem :: rest) pending
            (some { setFrame pg fr2 with idx := pg.idx + 1 }) false out
        | none =>
          flowFuel M reg dflt fuel (b :: rest) pending
            (some { pg with idx := pg.idx + 1 }) retried out

theorem flowFuel_sound (M : Measure) (reg : List Template) (dflt : String)
    (fuel : Nat) (bs : List Block) (p : Option String) (cur : Option PageState)
    (r : Bool) (out : List PageState) (res : Except FlowError (List PageState))
    (h : flowFuel M reg dflt fuel bs p cur r out = some res) :
    flowAux M reg dflt bs p cur r out = res := by
  induction fuel, bs, p, cur, r, out using flowFuel.induct M reg dflt generalizing res with
  | case1 => exact Option.noConfusion h
  | case2 =>
    simp only [flowFuel] at h
    rw [flowAux_nil]
    exact Option.some.inj h
  | case3 fuel n rest p cur retried out hn ih =>
    simp only [flowFuel, if_pos hn] at h
    rw [flowAux_switch_ok _ _ _ _ _ _ _ _ _ hn]
    exact ih res h
  | case4 fuel n rest p cur retried out hn =>
    simp only [flowFuel, if_neg hn] at h
    rw [flowAux_switch_err]
    · exact (Option.some.inj h).symm ▸ rfl
    · exact Option.not_isSome_iff_eq_none.mp hn
  | case5 fuel b rest pending r out hb hsp =>
    simp only [flowFuel, hsp] at h
    rw [flowAux_start_err M reg dflt b rest pending r out (isSwitch_eq_false hb) hsp]
    exact (Option.some.inj h).symm ▸ rfl
  | case6 fuel b rest pending r out hb pg hsp ih =>
    simp only [flowFuel, hsp] at h
    rw [flowAux_start M reg dflt b rest pending r out pg (isSwitch_eq_false hb) hsp]
    exact ih res h
  | case7 fuel rest pending pg r out hsp =>
    simp only [flowFuel, hsp] at h
    rw [flowAux_break_err _ _ _ _ _ _ _ _ hsp]
    exact (Option.some.inj h).symm ▸ rfl
  | case8 fuel rest pending pg r out pg2 hsp ih =>
    simp only [flowFuel, hsp] at h
    rw [flowAux_break _ _ _ _ _ _ _ _ _ hsp]
    exact ih res h
  | case9 fuel b rest pending pg out hb hbr hfr =>
    simp only [flowFuel, hfr, if_pos rfl] at h
    rw [flowAux_exhaust_retried M reg dflt b rest pending pg out
      (isSwitch_eq_false hb) (isBreak_eq_false hbr) hfr]
    exact (Option.some.inj h).symm ▸ rfl
  | case10 fuel b rest pending pg retried out hb hbr hfr hret hsp =>
    simp only [flowFuel, hfr] at h
    rw [if_neg hret, hsp] at h
    have hrf : retried = false := by
      cases retried
      · rfl
      · exact absurd rfl hret
    subst hrf
    rw [flowAux_roll_err M reg dflt b rest pending pg out
      (isSwitch_eq_false hb) (isBreak_eq_false hbr) hfr hsp]
    exact (Option.some.inj h).symm ▸ rfl
  | case11 fuel b rest pending pg retried out hb hbr hfr hret pg2 hsp ih =>
    simp only [flowFuel, hfr] at h
    rw [if_neg hret, hsp] at h
    have hrf : retried = false := by
      cases retried
      · rfl
      · exact absurd rfl hret
    subst hrf
    rw [flowAux_roll M reg dflt b rest pending pg out pg2
      (isSwitch_eq_false hb) (isBreak_eq_false hbr) hfr hsp]
    exact ih res h
  | case12 fuel b rest pending pg retried out hb hbr fr hfr fr2 hpl ih =>
    simp only [flowFuel, hfr, hpl] at h
    rw [flowAux_place M reg dflt b rest pending pg retried out fr fr2
      (isSwitch_eq_false hb) (isBreak_eq_false hbr) hfr hpl]
    exact ih res h
  | case13 fuel b rest pending pg retried out hb hbr fr hfr hpl fr2 rem hspl ih =>
    simp only [flowFuel, hfr, hpl, hspl] at h
    rw [flowAux_split M reg dflt b rest pending pg retried out fr fr2 rem
      (isSwitch_eq_false hb) (isBreak_eq_false hbr) hfr hpl hspl]
    exact ih res h
  | case14 fuel b rest pending pg retried out hb hbr fr hfr hpl hspl ih =>
    simp only [flowFuel, hfr, hpl, hspl] at h
    rw [flowAux_advance M reg dflt b rest pending pg retried out fr
      (isSwitch_eq_false hb) (isBreak_eq_false hbr) hfr hpl hspl]
    exact ih res h

instance {ε α : Type} [DecidableEq ε] [DecidableEq α] : DecidableEq (Except ε α) := fun x y =>
  match x, y with
  | .ok a, .ok b => if h : a = b then .isTrue (by rw [h]) else .isFalse (by simp [h])
  | .error e, .error f => if h : e = f then .isTrue (by rw [h]) else .isFalse (by simp [h])
  | .ok _, .error _ => .isFalse (by simp)
  | .error _, .ok _ => .isFalse (by simp)

/-- The conserved content of a block: directives carry nothing, splittable
blocks carry their characters (tagged with kind and style), all other blocks
are carried whole as single atoms. Fragments of a split paragraph contribute
exactly the characters of the original. -/
inductive Token where
  | atom (b : Block)
  | chr (kindPre : Bool) (styleRef : String) (c : Char)
  deriving DecidableEq, Repr

/-- Token sequence of one block. -/
def tokensOf : Block → List Token
  | .par t s => t.data.map (Token.chr false s)
  | .pre t s => t.data.map (Token.chr true s)
  | .pageBreak => []
  | .templateSwitch _ => []
  | b => [Token.atom b]

/-- Token sequence of a block stream, in order. -/
def streamTokens (bs : List Block) : List Token :=
  (bs.map tokensOf).flatten

/-- Token sequence of the content placed in one frame, in order. -/
def frameTokens (fr : FrameState) : List Token :=
  streamTokens fr.placed

/-- Token sequence of a list of frames, in registration order. -/
def framesTokens (l : List FrameState) : List Token :=
  (l.map frameTokens).flatten

/-- Token sequence of a page: frames in registration order. -/
def pageTokens (pg : PageState) : List Token :=
  framesTokens pg.frames

/-- Token sequence of a list of emitted pages, in order. -/
def pagesTokens (ps : List PageState) : List Token :=
  (ps.map pageTokens).flatten

/-- Token sequence of the page in progress, if any. -/
def curTokens : Option PageState → List Token
  | none => []
  | some pg => pageTokens pg

/-- Remaining capacity is nonnegative and never exceeds the frame's height. -/
def FrameBounds (fr : FrameState) : Prop :=
  0 ≤ fr.remaining ∧ fr.remaining ≤ (fr.spec.height : Int)

/-- A frame is fresh: full capacity and nothing placed. -/
def FrameFresh (fr : FrameState) : Prop :=
  fr.remaining = (fr.spec.height : Int) ∧ fr.placed = []

/-- All frames strictly after the current index are completely fresh: the
engine fills a page's frames strictly in registration order and never touches
a frame it has not yet reached. -/
def SuffixFresh (pg : PageState) : Prop :=
  ∀ k, pg.idx < k → ∀ fr, pg.frames[k]? = some fr → FrameFresh fr

/-- Every frame of the page satisfies its capacity bounds. -/
def PageBounds (pg : PageState) : Prop :=
  ∀ fr ∈ pg.frames, FrameBounds fr

/-- The page was built from a registered template: its frames are exactly
that template's frames, in registration order. -/
def PageFromReg (reg : List Template) (pg : PageState) : Prop :=
  ∃ T, findTemplate reg pg.templateName = some T ∧ pg.frames.map (·.spec) = T.frames

/-- Invariant of every page the engine ever produces or works on. -/
def PageInv (reg : List Template) (pg : PageState) : Prop :=
  PageBounds pg ∧ SuffixFresh pg ∧ pg.idx ≤ pg.frames.length ∧ PageFromReg reg pg

theorem streamTokens_nil : streamTokens [] = [] := rfl

theorem streamTokens_cons (b : Block) (bs : List Block) :
    streamTokens (b :: bs) = tokensOf b ++ streamTokens bs := by
  simp [streamTokens]

theorem pagesTokens_nil : pagesTokens [] = [] := rfl

theorem pagesTokens_append (a c : List PageState) :
    pagesTokens (a ++ c) = pagesTokens a ++ pagesTokens c := by
  simp [pagesTokens]

theorem framesTokens_cons (fr : FrameState) (l : List FrameState) :
    framesTokens (fr :: l) = frameTokens fr ++ framesTokens l := by
  simp [framesTokens]

theorem framesTokens_eq_nil {l : List FrameState}
    (h : ∀ fr ∈ l, fr.placed = []) : framesTokens l = [] := by
  induction l with
  | nil => rfl
  | cons x xs ih =>
    rw [framesTokens_cons, ih (fun fr hm => h fr (List.mem_cons_of_mem x hm))]
    have hx : x.placed = [] := h x (List.mem_cons_self x xs)
    simp [frameTokens, hx, streamTokens]

/-- Exact description of a successful `tryPlace`. -/
theorem tryPlace_eq_some {M : Measure} {fr : FrameState} {b : Block}
    {fr2 : FrameState} (h : tryPlace M fr b = some fr2) :
    ((M.height b fr.spec.width : Int) ≤ fr.remaining) ∧
    fr2 = { fr with remaining := fr.remaining - (M.height b fr.spec.width : Int),
                    placed := fr.placed ++ [b] } := by
  unfold tryPlace at h
  split at h
  case isTrue hle => exact ⟨hle, (Option.some.inj h).symm⟩
  case isFalse => exact Option.noConfusion h

/-- `tryPlace` fails exactly when the measured height exceeds remaining
capacity. -/
theorem tryPlace_eq_none_iff (M : Measure) (fr : FrameState) (b : Block) :
    tryPlace M fr b = none ↔ fr.remaining < (M.height b fr.spec.width : Int) := by
  unfold tryPlace
  split
  case isTrue hle =>
    exact iff_of_false (fun h => Option.noConfusion h) (by omega)
  case isFalse hlt =>
    exact iff_of_true rfl (by omega)

/-- Appending a block to the frame at the current index, while all later
frames are empty, appends that block's tokens to the page's token stream. -/
theorem framesTokens_set {l : List FrameState} {i : Nat} {fr fr2 : FrameState} {b : Block}
    (hget : l[i]? = some fr)
    (hsuf : ∀ k, i < k → ∀ fr', l[k]? = some fr' → fr'.placed = [])
    (hfr2 : fr2.placed = fr.placed ++ [b]) :
    framesTokens (l.set i fr2) = framesTokens l ++ tokensOf b := by
  induction l generalizing i with
  | nil => exact Option.noConfusion hget
  | cons x xs ih =>
    cases i with
    | zero =>
      have hx : x = fr := by simpa using hget
      subst hx
      have hxs : framesTokens xs = [] := by
        apply framesTokens_eq_nil
        intro fr' hm
        obtain ⟨k, hk, hget2⟩ := List.getElem_of_mem hm
        apply hsuf (k + 1) (Nat.succ_pos k) fr'
        simp only [List.getElem?_cons_succ]
        rw [List.getElem?_eq_getElem hk, hget2]
      simp [List.set, framesTokens_cons, hxs, frameTokens, hfr2, streamTokens]
    | succ j =>
      have hget' : xs[j]? = some fr := by simpa using hget
      have hsuf' : ∀ k, j < k → ∀ fr', xs[k]? = some fr' → fr'.placed = [] := by
        intro k hk fr' hg
        exact hsuf (k + 1) (by omega) fr' (by simpa using hg)
      simp only [List.set, framesTokens_cons, ih hget' hsuf']
      simp

/-- `setFrame` with a frame of unchanged geometry preserves the page's frame
geometry. -/
theorem map_spec_set {l : List FrameState} {i : Nat} {fr fr2 : FrameState}
    (hget : l[i]? = some fr) (hspec : fr2.spec = fr.spec) :
    (l.set i fr2).map (·.spec) = l.map (·.spec) := by
  induction l generalizing i with
  | nil => exact Option.noConfusion hget
  | cons x xs ih =>
    cases i with
    | zero =>
      have hx : x = fr := by simpa using hget
      subst hx
      simp [List.set, hspec]
    | succ j =>
      have hget' : xs[j]? = some fr := by simpa using hget
      simp [List.set, ih hget']

theorem mem_of_get? {α : Type} {l : List α} {i : Nat} {a : α}
    (h : l[i]? = some a) : a ∈ l := by
  obtain ⟨hlt, rfl⟩ := List.getElem?_eq_some_iff.mp h
  exact List.getElem_mem hlt

theorem startPage_eq_some {reg : List Template} {n : String} {pg : PageState}
    (h : startPage reg n = some pg) :
    ∃ T, findTemplate reg n = some T ∧ pg = ⟨n, T.frames.map freshFrame, 0⟩ := by
  unfold startPage at h
  cases hf : findTemplate reg n with
  | none => rw [hf] at h; exact Option.noConfusion h
  | some T => rw [hf] at h; exact ⟨T, rfl, (Option.some.inj h).symm⟩

/-- A freshly started page satisfies the page invariant, has no content, and
uses the requested template with frame index zero. -/
theorem startPage_PageInv {reg : List Template} {n : String} {pg : PageState}
    (h : startPage reg n = some pg) :
    PageInv reg pg ∧ pageTokens pg = [] ∧ pg.templateName = n ∧ pg.idx = 0 := by
  obtain ⟨T, hT, hpg⟩ := startPage_eq_some h
  subst hpg
  have hfresh : ∀ fr ∈ T.frames.map freshFrame, FrameFresh fr := by
    intro fr hm
    obtain ⟨f, -, hf⟩ := List.mem_map.mp hm
    exact hf ▸ ⟨rfl, rfl⟩
  refine ⟨⟨?_, ?_, by simp, ⟨T, hT, ?_⟩⟩, ?_, rfl, rfl⟩
  · intro fr hm
    obtain ⟨hr, -⟩ := hfresh fr hm
    exact ⟨by rw [hr]; exact Int.ofNat_nonneg _, by rw [hr]⟩
  · intro k _ fr hget
    exact hfresh fr (mem_of_get? hget)
  · show List.map (fun x => x.spec) (List.map freshFrame T.frames) = T.frames
    rw [List.map_map]
    exact List.map_id _
  · exact framesTokens_eq_nil (fun fr hm => (hfresh fr hm).2)

/-- Placing a block into the current frame preserves the page invariant and
appends the block's tokens to the page. -/
theorem PageInv_place {reg : List Template} {pg : PageState} {fr fr2 : FrameState}
    {M : Measure} {b : Block}
    (hinv : PageInv reg pg) (hget : pg.frames[pg.idx]? = some fr)
    (hpl : tryPlace M fr b = some fr2) :
    PageInv reg (setFrame pg fr2) ∧
    pageTokens (setFrame pg fr2) = pageTokens pg ++ tokensOf b := by
  obtain ⟨hb, hsf, hlen, T, hT, hmap⟩ := hinv
  obtain ⟨hle, hfr2⟩ := tryPlace_eq_some hpl
  have hspec : fr2.spec = fr.spec := by rw [hfr2]
  have hrem : fr2.remaining = fr.remaining - (M.height b fr.spec.width : Int) := by rw [hfr2]
  have hplaced : fr2.placed = fr.placed ++ [b] := by rw [hfr2]
  have hbfr : FrameBounds fr := hb fr (mem_of_get? hget)
  have h0 : (0 : Int) ≤ (M.height b fr.spec.width : Int) := Int.ofNat_nonneg _
  constructor
  · refine ⟨?_, ?_, ?_, T, hT, ?_⟩
    · intro fr3 hm
      simp only [setFrame] at hm
      rcases List.mem_or_eq_of_mem_set hm with hm2 | rfl
      · exact hb fr3 hm2
      · refine ⟨?_, ?_⟩
        · rw [hrem]; omega
        · rw [hrem, hspec]
          have := hbfr.2
          omega
    · intro k hk fr3 hget2
      simp only [setFrame] at hk hget2
      rw [List.getElem?_set_ne (show pg.idx ≠ k by omega)] at hget2
      exact hsf k hk fr3 hget2
    · simp only [setFrame, List.length_set]
      exact hlen
    · simp only [setFrame]
      show (pg.frames.set pg.idx _).map (fun x => x.spec) = T.frames
      rw [map_spec_set hget hspec]
      exact hmap
  · simp only [pageTokens, setFrame]
    exact framesTokens_set hget (fun k hk fr3 hg => (hsf k hk fr3 hg).2) hplaced

/-- The page invariant is preserved when the current frame is replaced by a
frame of the same geometry with a smaller, still nonnegative remaining
capacity, and the frame index advances. -/
theorem PageInv_set_advance {reg : List Template} {pg : PageState} {fr fr2 : FrameState}
    (hinv : PageInv reg pg) (hget : pg.frames[pg.idx]? = some fr)
    (hspec : fr2.spec = fr.spec) (hrem0 : 0 ≤ fr2.remaining)
    (hremle : fr2.remaining ≤ fr.remaining) :
    PageInv reg { setFrame pg fr2 with idx := pg.idx + 1 } := by
  obtain ⟨hb, hsf, hlen, T, hT, hmap⟩ := hinv
  have hidx : pg.idx < pg.frames.length := (List.getElem?_eq_some_iff.mp hget).1
  have hbfr : FrameBounds fr := hb fr (mem_of_get? hget)
  refine ⟨?_, ?_, ?_, T, hT, ?_⟩
  · intro fr3 hm
    simp only [setFrame] at hm
    rcases List.mem_or_eq_of_mem_set hm with hm2 | rfl
    · exact hb fr3 hm2
    · refine ⟨hrem0, ?_⟩
      rw [hspec]
      have := hbfr.2
      omega
  · intro k hk fr3 hget2
    simp only [setFrame] at hk hget2
    have hk2 : pg.idx + 1 < k := hk
    rw [List.getElem?_set_ne (show pg.idx ≠ k by omega)] at hget2
    exact hsf k (by omega) fr3 hget2
  · simp only [setFrame, List.length_set]
    show pg.idx + 1 ≤ pg.frames.length
    omega
  · simp only [setFrame]
    show (pg.frames.set pg.idx _).map (fun x => x.spec) = T.frames
    rw [map_spec_set hget hspec]
    exact hmap

/-- A validated split preserves the page invariant for the advanced page and
conserves tokens: placed fragment plus remainder carry the original tokens. -/
theorem PageInv_split {reg : List Template} {pg : PageState} {fr fr2 : FrameState}
    {M : Measure} {b rem : Block}
    (hinv : PageInv reg pg) (hget : pg.frames[pg.idx]? = some fr)
    (hsp : trySplit M fr b = some (fr2, rem)) :
    PageInv reg { setFrame pg fr2 with idx := pg.idx + 1 } ∧
    pageTokens { setFrame pg fr2 with idx := pg.idx + 1 } ++ tokensOf rem
      = pageTokens pg ++ tokensOf b := by
  obtain ⟨t, s, c, r, ch, hc, hcat, hchle, hcase⟩ := trySplit_eq_some hsp
  have hch0 : (0 : Int) ≤ (ch : Int) := Int.ofNat_nonneg _
  have hsfx : SuffixFresh pg := hinv.2.1
  rcases hcase with ⟨hbq, -, hfr2, hrm⟩ | ⟨hbq, -, hfr2, hrm⟩ <;> subst hbq <;> subst hrm
  · have hspec : fr2.spec = fr.spec := by rw [hfr2]
    have hrem2 : fr2.remaining = fr.remaining - (ch : Int) := by rw [hfr2]
    have hplaced : fr2.placed = fr.placed ++ [Block.par c s] := by rw [hfr2]
    refine ⟨PageInv_set_advance hinv hget hspec (by omega) (by omega), ?_⟩
    simp only [pageTokens, setFrame]
    show framesTokens (pg.frames.set pg.idx fr2) ++ _ = _
    rw [framesTokens_set hget (fun k hk fr3 hg => (hsfx k hk fr3 hg).2) hplaced]
    rw [List.append_assoc]
    congr 1
    simp only [tokensOf, ← List.map_append, ← String.data_append, hcat]
  · have hspec : fr2.spec = fr.spec := by rw [hfr2]
    have hrem2 : fr2.remaining = fr.remaining - (ch : Int) := by rw [hfr2]
    have hplaced : fr2.placed = fr.placed ++ [Block.pre c s] := by rw [hfr2]
    refine ⟨PageInv_set_advance hinv hget hspec (by omega) (by omega), ?_⟩
    simp only [pageTokens, setFrame]
    show framesTokens (pg.frames.set pg.idx fr2) ++ _ = _
    rw [framesTokens_set hget (fun k hk fr3 hg => (hsfx k hk fr3 hg).2) hplaced]
    rw [List.append_assoc]
    congr 1
    simp only [tokensOf, ← List.map_append, ← String.data_append, hcat]

/-- Advancing to the next frame preserves the page invariant and the page's
tokens. -/
theorem PageInv_advance {reg : List Template} {pg : PageState}
    (hinv : PageInv reg pg) (hlt : pg.idx < pg.frames.length) :
    PageInv reg { pg with idx := pg.idx + 1 } ∧
    pageTokens { pg with idx := pg.idx + 1 } = pageTokens pg := by
  obtain ⟨hb, hsf, hlen, T, hT, hmap⟩ := hinv
  refine ⟨⟨hb, ?_, by show pg.idx + 1 ≤ pg.frames.length; omega, T, hT, hmap⟩, rfl⟩
  intro k hk fr hget
  have hk2 : pg.idx + 1 < k := hk
  exact hsf k (by omega) fr hget

/-- A content block fits, at full measured height, some frame of the
template. -/
def FitsSomeFrame (M : Measure) (T : Template) (b : Block) : Prop :=
  ∃ f ∈ T.frames, M.height b f.width ≤ f.height

/-- A content block fits some frame of every registered template. -/
def FitsAll (M : Measure) (reg : List Template) (b : Block) : Prop :=
  ∀ T ∈ reg, FitsSomeFrame M T b

/-- Stream well-formedness for guaranteed success: every template switch
names a registered template, and every space-consuming block fits some frame
of every registered template. -/
def StreamOK (M : Measure) (reg : List Template) (b : Block) : Prop :=
  match b with
  | .templateSwitch n => (findTemplate reg n).isSome = true
  | .pageBreak => True
  | b => FitsAll M reg b

/-- The measurement boundary is well behaved for splitting: a split remainder
never requires more height than the block it came from. -/
def SplitMono (M : Measure) : Prop :=
  ∀ fr b fr2 rem, trySplit M fr b = some (fr2, rem) →
    ∀ w, M.height rem w ≤ M.height b w

/-- Invariant of the bounded fresh-page retry flag: when it is set, the head
of the stream is a content block, the current page is completely fresh, and
every frame before the current index has rejected that block. -/
def RetOK (M : Measure) (bs : List Block) (cur : Option PageState)
    (retried : Bool) : Prop :=
  retried = true → ∃ b rest pg, bs = b :: rest ∧ cur = some pg ∧ isContent b ∧
    (∀ fr ∈ pg.frames, FrameFresh fr) ∧
    (∀ k, k < pg.idx → ∀ fr, pg.frames[k]? = some fr →
      tryPlace M fr b = none ∧ trySplit M fr b = none)

theorem startPage_eq_none {reg : List Template} {n : String}
    (h : startPage reg n = none) : findTemplate reg n = none := by
  unfold startPage at h
  cases hf : findTemplate reg n with
  | none => rfl
  | some T => rw [hf] at h; exact Option.noConfusion h

theorem StreamOK_content {M : Measure} {reg : List Template} {b : Block}
    (hc : isContent b) (h : StreamOK M reg b) : FitsAll M reg b := by
  cases b <;> first
    | exact h
    | (obtain ⟨h1, h2⟩ := hc; simp [isSwitch, isBreak] at h1 h2)

theorem FitsAll_of_le {M : Measure} {reg : List Template} {b rem : Block}
    (hf : FitsAll M reg b) (hle : ∀ w, M.height rem w ≤ M.height b w) :
    FitsAll M reg rem := by
  intro T hT
  obtain ⟨f, hmem, hfit⟩ := hf T hT
  exact ⟨f, hmem, le_trans (hle f.width) hfit⟩

/-- Success theorem for the flow engine: with a monotone measurement
capability, a registered default template, registered pending override, pages
satisfying the invariant, and a stream whose switches are registered and
whose content blocks fit some frame of every registered template, the engine
never fails. -/
theorem flowAux_ok (M : Measure) (reg : List Template) (dflt : String)
    (hM : SplitMono M) (hdflt : (findTemplate reg dflt).isSome = true)
    (bs : List Block) (p : Option String) (cur : Option PageState) (r : Bool)
    (out : List PageState) :
    (∀ n, p = some n → (findTemplate reg n).isSome = true) →
    (∀ pg, cur = some pg → PageInv reg pg) →
    (∀ b ∈ bs, StreamOK M reg b) →
    RetOK M bs cur r →
    ∃ res, flowAux M reg dflt bs p cur r out = .ok res := by
  induction bs, p, cur, r, out using flowAux.induct M reg dflt with
  | case1 p cur r out =>
    intro hp hcur hstream hret
    exact ⟨_, flowAux_nil M reg dflt p cur r out⟩
  | case2 n rest p cur retried out hn ih =>
    intro hp hcur hstream hret
    rw [flowAux_switch_ok _ _ _ _ _ _ _ _ _ hn]
    apply ih (fun n2 h2 => (Option.some.inj h2) ▸ hn) hcur
      (fun b hm => hstream b (List.mem_cons_of_mem _ hm))
    intro hr
    obtain ⟨b, rest2, pg, hbs, -, hic, -, -⟩ := hret hr
    obtain ⟨rfl, -⟩ := List.cons.injEq .. ▸ hbs
    simp [isContent, isSwitch] at hic
  | case3 n rest p cur retried out hn =>
    intro hp hcur hstream hret
    have := hstream (.templateSwitch n) (List.mem_cons_self _ _)
    simp only [StreamOK] at this
    exact absurd this hn
  | case4 b rest pending r out hb hsp =>
    intro hp hcur hstream hret
    have hnone := startPage_eq_none hsp
    cases pending with
    | none => rw [Option.getD_none] at hnone; rw [hnone] at hdflt; exact absurd hdflt (by simp)
    | some n =>
      rw [Option.getD_some] at hnone
      have := hp n rfl
      rw [hnone] at this
      exact absurd this (by simp)
  | case5 b rest pending r out hb pg hsp ih =>
    intro hp hcur hstream hret
    rw [flowAux_start _ _ _ _ _ _ _ _ _ (isSwitch_eq_false hb) hsp]
    obtain ⟨hinv, -, -, -⟩ := startPage_PageInv hsp
    exact ih (fun n2 h2 => Option.noConfusion h2)
      (fun pg2 h2 => (Option.some.inj h2) ▸ hinv) hstream (fun hr => Bool.noConfusion hr)
  | case6 rest pending pg r out hsp =>
    intro hp hcur hstream hret
    have hnone := startPage_eq_none hsp
    cases pending with
    | none =>
      rw [Option.getD_none] at hnone
      obtain ⟨-, -, -, T, hT, -⟩ := hcur pg rfl
      rw [hnone] at hT
      exact Option.noConfusion hT
    | some n =>
      rw [Option.getD_some] at hnone
      have := hp n rfl
      rw [hnone] at this
      exact absurd this (by simp)
  | case7 rest pending pg r out pg2 hsp ih =>
    intro hp hcur hstream hret
    rw [flowAux_break _ _ _ _ _ _ _ _ _ hsp]
    obtain ⟨hinv, -, -, -⟩ := startPage_PageInv hsp
    exact ih (fun n2 h2 => Option.noConfusion h2)
      (fun q h2 => (Option.some.inj h2) ▸ hinv)
      (fun b hm => hstream b (List.mem_cons_of_mem _ hm))
      (fun hr => Bool.noConfusion hr)
  | case8 b rest pending pg out hb hbr hfr =>
    intro hp hcur hstream hret
    exfalso
    obtain ⟨b2, rest2, pg2, hbs, hcur2, hic, hfresh, hrej⟩ := hret rfl
    obtain ⟨rfl, rfl⟩ := List.cons.injEq .. ▸ hbs
    obtain rfl := Option.some.inj hcur2
    have hlen : pg.frames.length ≤ pg.idx := by
      by_contra hlt
      push_neg at hlt
      rw [List.getElem?_eq_getElem hlt] at hfr
      exact Option.noConfusion hfr
    have hfits : FitsAll M reg b :=
      StreamOK_content hic (hstream b (List.mem_cons_self _ _))
    obtain ⟨-, -, -, T, hT, hmap⟩ := hcur pg rfl
    have hTmem : T ∈ reg := List.mem_of_find?_eq_some hT
    obtain ⟨f, hfmem, hfit⟩ := hfits T hTmem
    rw [← hmap] at hfmem
    obtain ⟨fr, hfrmem, hfspec⟩ := List.mem_map.mp hfmem
    obtain ⟨j, hj, hjget⟩ := List.getElem_of_mem hfrmem
    have hjget2 : pg.frames[j]? = some fr := by
      rw [List.getElem?_eq_getElem hj, hjget]
    have hrejj := (hrej j (by omega) fr hjget2).1
    rw [tryPlace_eq_none_iff] at hrejj
    have hfr2 : FrameFresh fr := hfresh fr hfrmem
    rw [hfr2.1, hfspec] at hrejj
    omega
  | case9 b rest pending pg retried out hb hbr hfr hret2 hsp =>
    intro hp hcur hstream hret
    exfalso
    have hnone := startPage_eq_none hsp
    cases pending with
    | none =>
      rw [Option.getD_none] at hnone
      obtain ⟨-, -, -, T, hT, -⟩ := hcur pg rfl
      rw [hnone] at hT
      exact Option.noConfusion hT
    | some n =>
      rw [Option.getD_some] at hnone
      have := hp n rfl
      rw [hnone] at this
      exact absurd this (by simp)
  | case10 b rest pending pg retried out hb hbr hfr hret2 pg2 hsp ih =>
    intro hp hcur hstream hret
    have hrf : retried = false := by
      cases retried
      · rfl
      · exact absurd rfl hret2
    subst hrf
    rw [flowAux_roll _ _ _ _ _ _ _ _ _
      (isSwitch_eq_false hb) (isBreak_eq_false hbr) hfr hsp]
    obtain ⟨hinv, -, -, hidx0⟩ := startPage_PageInv hsp
    apply ih (fun n2 h2 => Option.noConfusion h2)
      (fun q h2 => (Option.some.inj h2) ▸ hinv) hstream
    intro _
    obtain ⟨T, hT, hpg2⟩ := startPage_eq_some hsp
    refine ⟨b, rest, pg2, rfl, rfl,
      ⟨isSwitch_eq_false hb, isBreak_eq_false hbr⟩, ?_, ?_⟩
    · intro fr hm
      rw [hpg2] at hm
      obtain ⟨f, -, hf⟩ := List.mem_map.mp hm
      exact hf ▸ ⟨rfl, rfl⟩
    · intro k hk fr hget
      rw [hidx0] at hk
      omega
  | case11 b rest pending pg retried out hb hbr fr hfr fr2 hpl ih =>
    intro hp hcur hstream hret
    rw [flowAux_place _ _ _ _ _ _ _ _ _ _ _
      (isSwitch_eq_false hb) (isBreak_eq_false hbr) hfr hpl]
    obtain ⟨hinv2, -⟩ := PageInv_place (hcur pg rfl) hfr hpl
    exact ih hp (fun q h2 => (Option.some.inj h2) ▸ hinv2)
      (fun b2 hm => hstream b2 (List.mem_cons_of_mem _ hm))
      (fun hr => Bool.noConfusion hr)
  | case12 b rest pending pg retried out hb hbr fr hfr hpl fr2 rem hspl ih =>
    intro hp hcur hstream hret
    rw [flowAux_split _ _ _ _ _ _ _ _ _ _ _ _
      (isSwitch_eq_false hb) (isBreak_eq_false hbr) hfr hpl hspl]
    obtain ⟨hinv2, -⟩ := PageInv_split (hcur pg rfl) hfr hspl
    apply ih hp (fun q h2 => (Option.some.inj h2) ▸ hinv2)
    · intro b2 hm
      rcases List.mem_cons.mp hm with rfl | hm2
      · have hfits : FitsAll M reg b :=
          StreamOK_content ⟨isSwitch_eq_false hb, isBreak_eq_false hbr⟩
            (hstream b (List.mem_cons_self _ _))
        have hrem : FitsAll M reg b2 := FitsAll_of_le hfits (hM fr b fr2 b2 hspl)
        obtain ⟨t, s, c, r2, ch, -, -, -, hcase⟩ := trySplit_eq_some hspl
        rcases hcase with ⟨-, -, -, hq⟩ | ⟨-, -, -, hq⟩ <;> subst hq <;>
          simpa [StreamOK] using hrem
      · exact hstream b2 (List.mem_cons_of_mem _ hm2)
    · exact fun hr => Bool.noConfusion hr
  | case13 b rest pending pg retried out hb hbr fr hfr hpl hspl ih =>
    intro hp hcur hstream hret
    rw [flowAux_advance _ _ _ _ _ _ _ _ _ _
      (isSwitch_eq_false hb) (isBreak_eq_false hbr) hfr hpl hspl]
    have hidx : pg.idx < pg.frames.length := (List.getElem?_eq_some_iff.mp hfr).1
    obtain ⟨hinv2, -⟩ := PageInv_advance (hcur pg rfl) hidx
    apply ih hp (fun q h2 => (Option.some.inj h2) ▸ hinv2) hstream
    intro hr
    obtain ⟨b2, rest2, pg2, hbs, hcur2, hic, hfresh, hrej⟩ := hret hr
    obtain ⟨rfl, rfl⟩ := List.cons.injEq .. ▸ hbs
    obtain rfl := Option.some.inj hcur2
    refine ⟨b, rest, { pg with idx := pg.idx + 1 }, rfl, rfl, hic, hfresh, ?_⟩
    intro k hk fr3 hget
    have hk2 : k < pg.idx + 1 := hk
    rcases Nat.lt_or_ge k pg.idx with hk3 | hk3
    · exact hrej k hk3 fr3 hget
    · obtain rfl : k = pg.idx := by omega
      obtain rfl : fr3 = fr := by
        rw [show ({ pg with idx := pg.idx + 1 } : PageState).frames[pg.idx]? =
          pg.frames[pg.idx]? from rfl] at hget
        exact Option.some.inj (hget.symm.trans hfr)
      exact ⟨hpl, hspl⟩

/-- Master conservation and invariant theorem for the flow engine: whenever
the engine succeeds, every emitted page satisfies the page invariant, and the
tokens of the emitted pages are exactly the already-emitted tokens, the
current page's tokens, and the remaining stream's tokens, in order. -/
theorem flowAux_master (M : Measure) (reg : List Template) (dflt : String)
    (bs : List Block) (p : Option String) (cur : Option PageState) (r : Bool)
    (out : List PageState) :
    (∀ pg, cur = some pg → PageInv reg pg) →
    (∀ pg ∈ out, PageInv reg pg) →
    ∀ res, flowAux M reg dflt bs p cur r out = .ok res →
      (∀ pg ∈ res, PageInv reg pg) ∧
      pagesTokens res = pagesTokens out ++ curTokens cur ++ streamTokens bs := by
  induction bs, p, cur, r, out using flowAux.induct M reg dflt with
  | case1 p cur r out =>
    intro hcur hout res heq
    rw [flowAux_nil] at heq
    obtain rfl := Except.ok.inj heq
    constructor
    · intro pg hm
      rcases List.mem_append.mp hm with hm2 | hm2
      · exact hout pg hm2
      · cases cur with
        | none => simp at hm2
        | some pg2 =>
          obtain rfl : pg = pg2 := by simpa using hm2
          exact hcur pg rfl
    · cases cur <;> simp [pagesTokens_append, curTokens, pagesTokens, streamTokens]
  | case2 n rest p cur retried out hn ih =>
    intro hcur hout res heq
    rw [flowAux_switch_ok _ _ _ _ _ _ _ _ _ hn] at heq
    obtain ⟨h1, h2⟩ := ih hcur hout res heq
    exact ⟨h1, by rw [h2, streamTokens_cons]; simp [tokensOf]⟩
  | case3 n rest p cur retried out hn =>
    intro hcur hout res heq
    rw [flowAux_switch_err _ _ _ _ _ _ _ _ _
      (Option.not_isSome_iff_eq_none.mp hn)] at heq
    exact Except.noConfusion heq
  | case4 b rest pending r out hb hsp =>
    intro hcur hout res heq
    rw [flowAux_start_err _ _ _ _ _ _ _ _ (isSwitch_eq_false hb) hsp] at heq
    exact Except.noConfusion heq
  | case5 b rest pending r out hb pg hsp ih =>
    intro hcur hout res heq
    rw [flowAux_start _ _ _ _ _ _ _ _ _ (isSwitch_eq_false hb) hsp] at heq
    obtain ⟨hinv, htok, -, -⟩ := startPage_PageInv hsp
    obtain ⟨h1, h2⟩ := ih (fun pg2 h2 => (Option.some.inj h2) ▸ hinv) hout res heq
    refine ⟨h1, ?_⟩
    rw [h2]
    simp [curTokens, htok]
  | case6 rest pending pg r out hsp =>
    intro hcur hout res heq
    rw [flowAux_break_err _ _ _ _ _ _ _ _ hsp] at heq
    exact Except.noConfusion heq
  | case7 rest pending pg r out pg2 hsp ih =>
    intro hcur hout res heq
    rw [flowAux_break _ _ _ _ _ _ _ _ _ hsp] at heq
    obtain ⟨hinv2, htok2, -, -⟩ := startPage_PageInv hsp
    have hout2 : ∀ q ∈ out ++ [pg], PageInv reg q := by
      intro q hm
      rcases List.mem_append.mp hm with hm2 | hm2
      · exact hout q hm2
      · obtain rfl : q = pg := by simpa using hm2
        exact hcur q rfl
    obtain ⟨h1, h2⟩ := ih (fun q h2 => (Option.some.inj h2) ▸ hinv2) hout2 res heq
    refine ⟨h1, ?_⟩
    rw [h2, pagesTokens_append, streamTokens_cons]
    simp [pagesTokens, curTokens, htok2, tokensOf]
  | case8 b rest pending pg out hb hbr hfr =>
    intro hcur hout res heq
    rw [flowAux_exhaust_retried _ _ _ _ _ _ _ _
      (isSwitch_eq_false hb) (isBreak_eq_false hbr) hfr] at heq
    exact Except.noConfusion heq
  | case9 b rest pending pg retried out hb hbr hfr hret hsp =>
    intro hcur hout res heq
    have hrf : retried = false := by
      cases retried
      · rfl
      · exact absurd rfl hret
    subst hrf
    rw [flowAux_roll_err _ _ _ _ _ _ _ _
      (isSwitch_eq_false hb) (isBreak_eq_false hbr) hfr hsp] at heq
    exact Except.noConfusion heq
  | case10 b rest pending pg retried out hb hbr hfr hret pg2 hsp ih =>
    intro hcur hout res heq
    have hrf : retried = false := by
      cases retried
      · rfl
      · exact absurd rfl hret
    subst hrf
    rw [flowAux_roll _ _ _ _ _ _ _ _ _
      (isSwitch_eq_false hb) (isBreak_eq_false hbr) hfr hsp] at heq
    obtain ⟨hinv2, htok2, -, -⟩ := startPage_PageInv hsp
    have hout2 : ∀ q ∈ out ++ [pg], PageInv reg q := by
      intro q hm
      rcases List.mem_append.mp hm with hm2 | hm2
      · exact hout q hm2
      · obtain rfl : q = pg := by simpa using hm2
        exact hcur q rfl
    obtain ⟨h1, h2⟩ := ih (fun q h2 => (Option.some.inj h2) ▸ hinv2) hout2 res heq
    refine ⟨h1, ?_⟩
    rw [h2, pagesTokens_append]
    simp [pagesTokens, curTokens, htok2]
  | case11 b rest pending pg retried out hb hbr fr hfr fr2 hpl ih =>
    intro hcur hout res heq
    rw [flowAux_place _ _ _ _ _ _ _ _ _ _ _
      (isSwitch_eq_false hb) (isBreak_eq_false hbr) hfr hpl] at heq
    obtain ⟨hinv2, htok2⟩ := PageInv_place (hcur pg rfl) hfr hpl
    obtain ⟨h1, h2⟩ := ih (fun q h2 => (Option.some.inj h2) ▸ hinv2) hout res heq
    refine ⟨h1, ?_⟩
    rw [h2, streamTokens_cons]
    simp only [curTokens, htok2]
    simp
  | case12 b rest pending pg retried out hb hbr fr hfr hpl fr2 rem hspl ih =>
    intro hcur hout res heq
    rw [flowAux_split _ _ _ _ _ _ _ _ _ _ _ _
      (isSwitch_eq_false hb) (isBreak_eq_false hbr) hfr hpl hspl] at heq
    obtain ⟨hinv2, htok2⟩ := PageInv_split (hcur pg rfl) hfr hspl
    obtain ⟨h1, h2⟩ := ih (fun q h2 => (Option.some.inj h2) ▸ hinv2) hout res heq
    refine ⟨h1, ?_⟩
    rw [h2, streamTokens_cons, streamTokens_cons]
    simp only [curTokens, ← List.append_assoc]
    rw [List.append_assoc (pagesTokens out), htok2]
    simp
  | case13 b rest pending pg retried out hb hbr fr hfr hpl hspl ih =>
    intro hcur hout res heq
    rw [flowAux_advance _ _ _ _ _ _ _ _ _ _
      (isSwitch_eq_false hb) (isBreak_eq_false hbr) hfr hpl hspl] at heq
    have hidx : pg.idx < pg.frames.length := (List.getElem?_eq_some_iff.mp hfr).1
    obtain ⟨hinv2, htok2⟩ := PageInv_advance (hcur pg rfl) hidx
    obtain ⟨h1, h2⟩ := ih (fun q h2 => (Option.some.inj h2) ▸ hinv2) hout res heq
    refine ⟨h1, ?_⟩
    rw [h2]
    simp [curTokens, htok2]

/-- Top-level success: with a monotone measurement capability, a registered
default template, and a stream whose switches are registered and whose
content blocks fit some frame of every registered template, the engine
returns emitted pages (it terminates without error). -/
theorem flow_ok (M : Measure) (reg : List Template) (dflt : String)
    (blocks : List Block) (hM : SplitMono M)
    (hdflt : (findTemplate reg dflt).isSome = true)
    (hstream : ∀ b ∈ blocks, StreamOK M reg b) :
    ∃ pages, flow M reg dflt blocks = .ok pages :=
  flowAux_ok M reg dflt hM hdflt blocks none none false []
    (fun _ h => Option.noConfusion h) (fun _ h => Option.noConfusion h)
    hstream (fun hr => Bool.noConfusion hr)

/-- Top-level conservation: a successful flow emits pages that satisfy the
page invariant and whose tokens, page by page and frame by frame in order,
are exactly the input stream's tokens. -/
theorem flow_conserv (M : Measure) (reg : List Template) (dflt : String)
    (blocks : List Block) (pages : List PageState)
    (h : flow M reg dflt blocks = .ok pages) :
    (∀ pg ∈ pages, PageInv reg pg) ∧ pagesTokens pages = streamTokens blocks := by
  obtain ⟨h1, h2⟩ := flowAux_master M reg dflt blocks none none false []
    (fun _ h2 => Option.noConfusion h2) (fun _ h2 => by simp at h2) pages h
  refine ⟨h1, ?_⟩
  rw [h2]
  simp [pagesTokens, curTokens]

/-- Walking a page whose every frame rejects the head block, with the retry
flag set, ends in the BlockTooLarge error. -/
theorem flowAux_too_large_retried (M : Measure) (reg : List Template)
    (dflt : String) (b : Block) (rest : List Block) (p : Option String)
    (hb : isSwitch b = false) (hbr : isBreak b = false)
    (hsplit : ∀ fr, trySplit M fr b = none) :
    ∀ k (pg : PageState) (out : List PageState), pg.frames.length - pg.idx = k →
    (∀ fr ∈ pg.frames, fr.remaining < (M.height b fr.spec.width : Int)) →
    flowAux M reg dflt (b :: rest) p (some pg) true out =
      .error (.blockTooLarge b) := by
  intro k
  induction k with
  | zero =>
    intro pg out hk hnofit
    have hfr : pg.frames[pg.idx]? = none := List.getElem?_eq_none (by omega)
    exact flowAux_exhaust_retried M reg dflt b rest p pg out hb hbr hfr
  | succ k ih =>
    intro pg out hk hnofit
    have hlt : pg.idx < pg.frames.length := by omega
    have hfr : pg.frames[pg.idx]? = some pg.frames[pg.idx] :=
      List.getElem?_eq_getElem hlt
    have hpl : tryPlace M pg.frames[pg.idx] b = none :=
      (tryPlace_eq_none_iff M _ b).mpr (hnofit _ (List.getElem_mem hlt))
    rw [flowAux_advance M reg dflt b rest p pg true out _ hb hbr hfr hpl (hsplit _)]
    exact ih { pg with idx := pg.idx + 1 } out (by simpa using (by omega)) hnofit

/-- A head block that is too tall for every frame of every registered
template, and cannot be split, drives the engine from any invariant page
into the BlockTooLarge error. -/
theorem flowAux_too_large (M : Measure) (reg : List Template) (dflt : String)
    (b : Block) (rest : List Block)
    (hb : isSwitch b = false) (hbr : isBreak b = false)
    (hsplit : ∀ fr, trySplit M fr b = none)
    (hbig : ∀ T ∈ reg, ∀ f ∈ T.frames, (f.height : Int) < (M.height b f.width : Int)) :
    ∀ k (pg : PageState) (out : List PageState), pg.frames.length - pg.idx = k →
    PageFromReg reg pg → PageBounds pg →
    flowAux M reg dflt (b :: rest) none (some pg) false out =
      .error (.blockTooLarge b) := by
  intro k
  induction k with
  | zero =>
    intro pg out hk hfromreg hbounds
    obtain ⟨T, hT, hmap⟩ := hfromreg
    have hfr : pg.frames[pg.idx]? = none := List.getElem?_eq_none (by omega)
    have hsp : startPage reg ((none : Option String).getD pg.templateName) =
        some ⟨pg.templateName, T.frames.map freshFrame, 0⟩ := by
      simp [startPage, hT]
    rw [flowAux_roll M reg dflt b rest none pg out _ hb hbr hfr hsp]
    apply flowAux_too_large_retried M reg dflt b rest none hb hbr hsplit
      (List.map freshFrame T.frames).length _ _ (by simp)
    intro fr hm
    obtain ⟨f, hfmem, hf⟩ := List.mem_map.mp hm
    rw [← hf]
    exact hbig T (List.mem_of_find?_eq_some hT) f hfmem
  | succ k ih =>
    intro pg out hk hfromreg hbounds
    obtain ⟨T, hT, hmap⟩ := hfromreg
    have hlt : pg.idx < pg.frames.length := by omega
    have hfr : pg.frames[pg.idx]? = some pg.frames[pg.idx] :=
      List.getElem?_eq_getElem hlt
    have hmem : pg.frames[pg.idx] ∈ pg.frames := List.getElem_mem hlt
    have hnofit : pg.frames[pg.idx].remaining <
        (M.height b pg.frames[pg.idx].spec.width : Int) := by
      have h1 := (hbounds _ hmem).2
      have h2 : pg.frames[pg.idx].spec ∈ T.frames := by
        rw [← hmap]
        exact List.mem_map_of_mem _ hmem
      have h3 := hbig T (List.mem_of_find?_eq_some hT) _ h2
      omega
    have hpl : tryPlace M pg.frames[pg.idx] b = none :=
      (tryPlace_eq_none_iff M _ b).mpr hnofit
    rw [flowAux_advance M reg dflt b rest none pg false out _ hb hbr hfr hpl (hsplit _)]
    exact ih { pg with idx := pg.idx + 1 } out (by simpa using (by omega))
      ⟨T, hT, hmap⟩ hbounds

/-- Modelled from the spec (§7 EmptyTemplate): registration rejects any
template that has zero frames, before any flow processing begins. -/
def registerTemplates (ts : List Template) : Except FlowError (List Template) :=
  match ts.find? (fun t => t.frames.isEmpty) with
  | some t => .error (.emptyTemplate t.name)
  | none => .ok ts

/-- Modelled from the spec (§4.3, §6, §7): the whole pipeline — register the
templates, then flow the block stream. -/
def buildDocument (M : Measure) (ts : List Template) (dflt : String)
    (blocks : List Block) : Except FlowError (List PageState) :=
  match registerTemplates ts with
  | .error e => .error e
  | .ok reg => flow M reg dflt blocks

/-!
Source-translated part: frame geometry of `TwoColumnTemplate.__init__` and
the content/element construction of `main`
(src/paper/generate_vector_paper.py).
-/

/-- One inch in PDF points (reportlab `inch`). -/
def inch : Rat := 72

/-- US letter page width in points (reportlab `letter`). -/
def letterWidth : Rat := 612

/-- US letter page height in points (reportlab `letter`). -/
def letterHeight : Rat := 792

/-- A reportlab `Frame(x, y, width, height, id=...)`: x and y are the lower
left corner, in points. -/
structure PFrame where
  x : Rat
  y : Rat
  width : Rat
  height : Rat
  id : String
  deriving DecidableEq, Repr

/-- `first_page_col1` of `TwoColumnTemplate.__init__` (source lines 25-31). -/
def first_page_col1 : PFrame :=
  ⟨inch / 2, inch, (letterWidth - 1.5 * inch) / 2, letterHeight - 0.40 * inch,
   "first_col1"⟩

/-- `first_page_col2` (source lines 32-38). -/
def first_page_col2 : PFrame :=
  ⟨(letterWidth + 0.5 * inch) / 2, inch, (letterWidth - 1.5 * inch) / 2,
   letterHeight - 4 * inch, "first_col2"⟩

/-- `content_col1` (source line 41). -/
def content_col1 : PFrame :=
  ⟨inch / 2, inch, (letterWidth - 1.5 * inch) / 2, letterHeight - 2 * inch,
   "col1"⟩

/-- `content_col2` (source lines 42-44). -/
def content_col2 : PFrame :=
  ⟨(letterWidth + 0.5 * inch) / 2, inch, (letterWidth - 1.5 * inch) / 2,
   letterHeight - 2 * inch, "col2"⟩

/-- `appendix_frame` (source line 47). -/
def appendix_frame : PFrame :=
  ⟨inch, inch, letterWidth - 2 * inch, letterHeight - 2 * inch, "appendix"⟩

/-- The page templates registered by `addPageTemplates` (source lines 60-66). -/
def twoColumnPageTemplates : List (String × List PFrame) :=
  [(("FirstPage"), [first_page_col1, first_page_col2]),
   (("ContentPage"), [content_col1, content_col2]),
   (("AppendixPage"), [appendix_frame])]

/-- A frame lies within the letter page bounds. -/
def withinPage (f : PFrame) : Prop :=
  0 ≤ f.x ∧ 0 ≤ f.y ∧ f.x + f.width ≤ letterWidth ∧ f.y + f.height ≤ letterHeight

/-- The value of a subsection in the `sections` dictionary of `main`: a
string, or (for `"2.1_list"`) a list of item strings. -/
inductive SubContent where
  | text (s : String)
  | items (l : List String)
  deriving DecidableEq, Repr

/-- A dictionary-valued section of `main`: the optional keys `content`,
`steps_list`, `subsections` and `footer`, with dictionaries and lists kept in
source (insertion) order. -/
structure SectionDict where
  content : Option String
  stepsList : Option (List String)
  subsections : List (String × SubContent)
  footer : Option String
  deriving DecidableEq, Repr

/-- A value of the `sections` dictionary: a plain string or a dictionary. -/
inductive SectionContent where
  | text (s : String)
  | dict (d : SectionDict)
  deriving DecidableEq, Repr

/-- An entry of the `appendices` dictionary: title, content, optional
footer. -/
structure AppendixDict where
  title : String
  content : String
  footer : Option String
  deriving DecidableEq, Repr

/-- The flowables `main` appends to `elements`: Paragraph(text, style),
Spacer(width, height), NextPageTemplate(name), PageBreak(),
Preformatted(text, style), and ListFlowable over ListItem(Paragraph(item,
style)) with a bullet type and a list style. -/
inductive Flowable where
  | par (text : String) (style : String)
  | spacer (w h : Rat)
  | nextPageTemplate (name : String)
  | pageBreak
  | pre (text : String) (style : String)
  | listFlow (items : List (String × String)) (bulletType : String) (style : String)
  deriving DecidableEq, Repr

/-- Splitting a character list at every occurrence of two consecutive newline
characters; scanning is left to right, exactly as Python
`str.split` with separator a double newline. -/
def splitNN : List Char → List (List Char)
  | [] => [[]]
  | '\n' :: '\n' :: rest => [] :: splitNN rest
  | c :: rest =>
    match splitNN rest with
    | [] => [[c]]
    | g :: gs => (c :: g) :: gs

/-- Python `s.split("\n\n")`. -/
def pySplitParas (s : String) : List String :=
  (splitNN s.data).map (fun l => ⟨l⟩)

/-- Python `s.endswith(sfx)`. -/
def pyEndsWith (t sfx : String) : Bool :=
  sfx.data.isSuffixOf t.data

/-- Python `s.split("\n\n", 1)`, as the pair (head, rest rejoined). -/
def pySplitParasOnce (s : String) : String × String :=
  match pySplitParas s with
  | [] => (s, ("") )
  | [x] => (x, ("") )
  | x :: rest => (x, String.intercalate ("\n\n") rest)

def sections : List (String × SectionContent) := [
  (("Abstract"),
   SectionContent.text ("As the ecosystem of tools and agents available for integration with Large Language Models (LLMs) expands, selecting the most relevant tools for a given task becomes critical for efficiency and improving interaction quality. This paper explores the use of vector-based search and embeddings to pre-select tools from a large pool (e.g., 100+ tools), ensuring a more targeted and contextually relevant interaction. Additionally, this approach can be extended to agent orchestration systems, such as OpenAI\x27s Swarm [1], to optimize handoffs between agents in complex multi-agent scenarios.")),
  (("1. Introduction"),
   SectionContent.text ("Modern LLMs are increasingly being augmented with external tools to extend their capabilities, such as retrieving real-time information, performing complex calculations, or manipulating structured data. While maintaining a large pool of tools does not inherently create computational overhead, passing an excessive number of tools into the LLM can lead to context length constraints and inefficiencies. Efficiently narrowing down the pool of tools to those most relevant to a user\x27s query is crucial to ensure seamless interaction and reduce token usage.\n\nVector-based search, leveraging embeddings to represent tools and user queries in a shared high-dimensional space, provides a scalable and efficient mechanism for this pre-selection. Techniques such as Hypothetical Document Embeddings (HyDE) [2] can further enhance the matching process by generating hypothetical intermediate outputs to better align queries with tool capabilities.\n\nIn addition, systems like OpenAI\x27s Swarm, which orchestrate the actions of multiple specialized agents, face similar challenges of scalability and relevance. Embedding-based approaches can be extended to optimize agent selection in these multi-agent environments.")),
  (("2. Methodology"),
   SectionContent.dict
    ⟨some (""),
     none,
     [
      (("2.1 Tool Embedding Generation"),
       SubContent.text ("Each tool is described using its metadata, documentation, and sample use cases. These descriptions are converted into embeddings using transformer-based models (e.g., OpenAI embeddings or Sentence-BERT). The tool representation may vary, but the core idea is to capture the tool\x27s functionality, parameters, and potential use cases in a way that is easy to understand, and create a relevant embedding. The embedding process could include:")),
      (("2.1_list"),
       SubContent.items [
        ("Metadata Representation: Capturing the tool\x27s core functionality, parameters, and potential use cases"),
        ("Contextual Examples: Generating short synthetic examples of tool usage to enrich the embedding")]),
      (("2.2 Query Embedding and HyDE"),
       SubContent.text ("When a user provides a query, it is embedded into the same vector space as the tools. Optionally, the Hypothetical Document Embeddings (HyDE) technique generates a plausible response to the query and embeds this response. The final query embedding can then be a blend of the direct query embedding and the HyDE-enhanced embedding, improving alignment with tool capabilities.")),
      (("2.3 Vector-Based Matching"),
       SubContent.text ("The cosine similarity between the query embedding and each tool embedding is computed. Tools are ranked based on similarity scores, and the top results are selected. These tools can either be directly passed to the LLM or used as input for further decision-making processes.")),
      (("2.4 Extension to Agent-Orchestration Systems"),
       SubContent.text ("In multi-agent systems like OpenAI\x27s Swarm, each agent\x27s capabilities and domain expertise can be embedded using a similar methodology. Tasks or queries are matched to the most relevant agents, enabling efficient decomposition and assignment in complex scenarios."))],
     none⟩),
  (("3. Applications"),
   SectionContent.dict
    ⟨some (""),
     none,
     [
      (("3.1 Pre-Selection of Tools for LLMs"),
       SubContent.text ("The described approach allows systems to pre-select a subset of tools to pass into the LLM, ensuring that only the most relevant options occupy the limited context space. This prevents wasting tokens on irrelevant tools and allows the LLM to focus on producing high-quality results.")),
      (("3.2 Agent Selection in Multi-Agent Frameworks"),
       SubContent.text ("Embedding-based filtering is also used to dynamically assign tasks to the best-suited agents in systems like OpenAI\x27s Swarm. This approach can further optimize multi-agent systems by ensuring that each agent is utilized according to its strengths and capabilities."))],
     none⟩),
  (("4. Implementation"),
   SectionContent.dict
    ⟨some ("A practical implementation of the vector-based search approach has been developed and tested. The system successfully demonstrates the effectiveness of embedding-based tool selection in reducing context size and improving response relevance.\n\nThe implementation uses modern embedding models to generate high-quality vector representations of both tools and queries. Detailed pseudocode for the implementation is provided in Appendix A, which covers the core components including tool embedding generation, query processing with optional HyDE enhancement, and similarity-based ranking."),
     none,
     [],
     none⟩),
  (("5. Experiments"),
   SectionContent.dict
    ⟨some ("An experiment was conducted to evaluate the effectiveness of the vector-based tool selection approach. The system was tested with a configurable number of tools (default 100) and test queries (default 400). These tools and queries were generated by AI, and minimal processing was done to curate them.\n\nEach experiment followed these steps:"),
     some [
       ("Tool Embedding: All tools were embedded into vector space using the Nomic Embed Text model."),
       ("Query Processing: Each query was passed through an HyDE pass to generate a generate an hypotetical description of the tool that would be used to answer the query."),
       ("Vector-Based Matching: The cosine similarity between the HyDE-enhanced query embedding and each tool embedding was computed and the top 5 tools were selected based on cosine similarity."),
       ("Metrics collected: Token usage (measuring the number of tokens required to represent the selected tools versus the full tool set) and selection accuracy (determining whether the expected tool was included in the vector-selected subset).")],
     [
      (("5.1 Results"),
       SubContent.text ("The pre-selection obviously results in a very high reduction in terms of token usage, because reducing from 100 to 5 tools would reduce the token usage by 95% for most queries if we consider the tools to have around the same size in tokens. The interesting part is attempting to maintain a high selection accuracy while reducing the token usage, which makes it possible to run in smaller models.\n\nThe results show that the vector-based approach is able to maintain a high selection accuracy even when the number of tools is increased. In the majority of the test runs, the expected tool was in the top 5 results. This accounts for more than 94% of the test queries. Using HyDE, the selection accuracy was able to reach higher accuracy, sometimes more than 98%, for runs of 400 queries, especially when the queries were trickier.\n\nFor example, if the query was \"Hash the contents: \x27How\x27s the weather today?\x27\", the expected tool would be a hashing tool, instead of a weather tool. These are the cases where the HyDE technique is better than just using the plain query embedding.\n\nThe results were obtained by running over multiple runs of 400 queries with 100 tools. The code for the experiment, with one example test run, is available at https://github.com/AndreBaltazar8/tool-pre-selection.\n\n")),
      (("5.2 Discussion"),
       SubContent.text ("The experimental results were obtained using a limited dataset of AI-generated tools and queries, which introduces potential sampling bias as these may not fully represent real-world use cases. Nevertheless, the findings demonstrate that the vector-based approach successfully maintains high selection accuracy as the toolset scales, while achieving substantial reductions in token utilization.\n\nThe integration of HyDE in the query embedding pipeline introduces additional computational overhead but yields improved selection accuracy. With appropriate prompt engineering, the technique demonstrates robust performance even when using smaller models.\n\nSmaller models like 3B parameters still result in a good selection accuracy, which makes it possible to run HyDE at an higher token/s and increase the selection accuracy.\n\nFurther research opportunities include evaluating the approach using a more comprehensive, manually curated dataset of tools and queries. Additionally, empirical validation through end-to-end testing with LLM-based tool execution would provide valuable insights into the practical impact of reducing the tool context from 100 to 5 options. It could also be interesting to normalize the description of the tools in regards to what the HyDE generates, which would increase the selection accuracy even more."))],
     none⟩),
  (("6. Conclusion"),
   SectionContent.text ("Vector-based search and embedding techniques provide an efficient mechanism for narrowing down large pools of tools or agents in LLM-driven systems. By leveraging techniques like HyDE and embedding-based similarity, these systems dynamically identify the most relevant tools or agents for a given task.\n\nThis approach has been successfully implemented in real-world systems to pre-select tools that are passed into the LLM or, in some cases, to outright select the best tool for the task.")),
  (("Acknowledgments"),
   SectionContent.text ("I want to express my deep gratitude to my good friend, José Camacho, for our insightful discussions on these topics. He pointed me to the HyDE technique and suggested it as an approach for achieving more relevant results when selecting tools, compared to relying solely on embeddings of the input query.")),
  (("References"),
   SectionContent.text ("1. OpenAI Cookbook, \x27Orchestrating Agents with Swarm\x27, https://cookbook.openai.com/examples/orchestrating_agents\n\n2. Gao et al., \x27Precise Zero-Shot Dense Retrieval without Relevance Labels\x27, arXiv:2212.10496, https://doi.org/10.48550/arXiv.2212.10496\n\n")),
  (("Disclaimer"),
   SectionContent.text ("This paper was co-written by AI with additional guidance from the human editor. The pseudocode in Appendix A was fully written with AI assistance."))
]

def appendices : List (String × AppendixDict) := [
  (("A"),
   ⟨("Implementation"),
    ("Below is a high-level pseudocode representation of how vector-based search can be used to select relevant tools:\n\n# Step 1: Embed all tools into a shared vector space\ndef generate_tool_embeddings(tool_descriptions, embedding_model):\n    tool_embeddings = \x7b\x7d\n    for tool_name, description in tool_descriptions.items():\n        embedding = embedding_model.encode(description)\n        tool_embeddings[tool_name] = embedding\n    return tool_embeddings\n\n# Step 2: Embed the user query and (optionally) use HyDE\ndef generate_query_embedding(query, embedding_model, use_hyde=False):\n    if use_hyde:\n        hypothetical_response = generate_hypothetical_response(query)\n        query_embedding = embedding_model.encode(hypothetical_response)\n    else:\n        query_embedding = embedding_model.encode(query)\n    return query_embedding\n\n# Step 3: Calculate cosine similarity between query and tools\ndef rank_tools(query_embedding, tool_embeddings):\n    similarities = \x7b\x7d\n    for tool_name, tool_embedding in tool_embeddings.items():\n        similarity = cosine_similarity(query_embedding, tool_embedding)\n        similarities[tool_name] = similarity\n    return sorted(similarities.items(), key=lambda x: x[1], reverse=True)\n\n# Step 4: Select top-N tools to pass to the LLM\ndef select_relevant_tools(query, tool_descriptions, embedding_model, top_n=5, use_hyde=False):\n    tool_embeddings = generate_tool_embeddings(tool_descriptions, embedding_model)\n    query_embedding = generate_query_embedding(query, embedding_model, use_hyde)\n    ranked_tools = rank_tools(query_embedding, tool_embeddings)\n    return [tool for tool, score in ranked_tools[:top_n]]\n\n# Example usage\ntool_descriptions = \x7b\n    \x27WeatherAPI\x27: \x27Provides real-time weather data for a given location.\x27,\n    \x27Calculator\x27: \x27Performs basic and advanced mathematical calculations.\x27,\n    \x27Translator\x27: \x27Translates text between multiple languages.\x27,\n    # Add more tools...\n\x7d\n\nquery = \"What\x27s the weather in New York?\"\nembedding_model = SomeEmbeddingModel()  # Use your embedding model here\nselected_tools = select_relevant_tools(\n    query,\n    tool_descriptions,\n    embedding_model,\n    top_n=3,\n    use_hyde=True\n)\n\nprint(\x27Selected tools:\x27, selected_tools)"),
    some ("This pseudocode demonstrates how tools can be pre-selected based on their embeddings and the similarity to a query. Similar logic applies to agent selection, with agent descriptions replacing tool descriptions.")⟩)
]

/-- The elements one subsection contributes (source lines 405-416): every
title not ending in `_list` contributes a subheading and, when the content is
a string, one body paragraph per paragraph split; the title `2.1_list`
contributes a bullet ListFlowable over its items. -/
def subsectionElements (title : String) (c : SubContent) : List Flowable :=
  (if ¬ pyEndsWith title ("_list") then
    Flowable.par title ("CustomSubHeading") ::
      (match c with
       | .text s => (pySplitParas s).map (fun p => Flowable.par p ("CustomBody"))
       | .items _ => [])
   else []) ++
  (if title == "2.1_list" then
    match c with
    | .items l =>
      [Flowable.listFlow (l.map (fun i => (i, ("CustomBody")))) ("bullet") ("BulletList")]
    | .text _ => []
   else [])

/-- The elements one section contributes (source lines 382-424). -/
def sectionElements (title : String) (c : SectionContent) : List Flowable :=
  (if title == "1. Introduction" then [Flowable.nextPageTemplate ("ContentPage")]
   else []) ++
  [(if title == "Abstract" then Flowable.par title ("AbstractHeading")
    else Flowable.par title ("CustomHeading"))] ++
  (match c with
   | .dict d =>
     (match d.content with
      | some s =>
        if s ≠ "" then (pySplitParas s).map (fun p => Flowable.par p ("CustomBody"))
        else []
      | none => []) ++
     (match d.stepsList with
      | some items =>
        if items ≠ [] then
          [Flowable.listFlow (items.map (fun i => (i, ("CustomBody")))) ("1")
            ("NumberedList")]
        else []
      | none => []) ++
     (if d.subsections ≠ [] then
        d.subsections.flatMap (fun q => subsectionElements q.1 q.2)
      else []) ++
     (match d.footer with
      | some f => if f ≠ "" then [Flowable.par f ("CustomBody")] else []
      | none => [])
   | .text s => (pySplitParas s).map (fun p => Flowable.par p ("CustomBody")))

/-- The elements one appendix contributes (source lines 427-443). -/
def appendixElements (aid : String) (a : AppendixDict) : List Flowable :=
  [Flowable.nextPageTemplate ("AppendixPage"), Flowable.pageBreak,
   Flowable.par (("Appendix ") ++ aid ++ (": ") ++ a.title) ("CustomHeading"),
   Flowable.par (pySplitParasOnce a.content).1 ("CustomBody"),
   Flowable.spacer 1 12,
   Flowable.pre (pySplitParasOnce a.content).2 ("CustomCode"),
   Flowable.spacer 1 12] ++
  (match a.footer with
   | some f => if f ≠ "" then [Flowable.par f ("CustomBody")] else []
   | none => [])

/-- The full element list `main` builds (source lines 376-443): the title
spacer, then the sections, then the appendices. -/
def elements : List Flowable :=
  Flowable.spacer 1 (3.5 * inch) ::
    (sections.flatMap (fun q => sectionElements q.1 q.2) ++
     appendices.flatMap (fun q => appendixElements q.1 q.2))

/-- Every subsection pair appearing in `sections`, in order. -/
def allSubsections : List (String × SubContent) :=
  sections.flatMap (fun q =>
    match q.2 with
    | .dict d => d.subsections
    | .text _ => [])

/-- The claim's description of a subsection's contribution: a `_list` title
contributes only the list flowable built from its items in order; any other
title contributes its title as a subheading followed by one body paragraph
per paragraph chunk of its string content. -/
def subsectionExpected (title : String) (c : SubContent) : List Flowable :=
  if pyEndsWith title ("_list") then
    match c with
    | .items l =>
      [Flowable.listFlow (l.map (fun i => (i, ("CustomBody")))) ("bullet") ("BulletList")]
    | .text _ => []
  else
    Flowable.par title ("CustomSubHeading") ::
      (match c with
       | .text s => (pySplitParas s).map (fun p => Flowable.par p ("CustomBody"))
       | .items _ => [])

/-! Concrete material for scenario runs and witnesses. -/

/-- A simple concrete measurement capability: a spacer is as tall as its
height parameter, paragraph and preformatted text is one unit per character,
headings and lists are one unit tall; splitting cuts the text at the
available height, one character per unit. -/
def charMeasure : Measure where
  height := fun b _ =>
    match b with
    | .spacer h => h
    | .par t _ => t.length
    | .pre t _ => t.length
    | _ => 1
  split := fun b _ avail =>
    match b with
    | .par t _ =>
      if 0 < avail ∧ avail < t.length then
        some (⟨t.data.take avail⟩, ⟨t.data.drop avail⟩, avail)
      else none
    | .pre t _ =>
      if 0 < avail ∧ avail < t.length then
        some (⟨t.data.take avail⟩, ⟨t.data.drop avail⟩, avail)
      else none
    | _ => none

theorem charMeasure_splitMono : SplitMono charMeasure := by
  intro fr b fr2 rem hsp w
  obtain ⟨t, s, c, r, ch, hc, hcat, -, hcase⟩ := trySplit_eq_some hsp
  have hlen : t.length = c.length + r.length := by
    rw [← hcat]
    exact String.length_append c r
  rcases hcase with ⟨hb, -, -, hr⟩ | ⟨hb, -, -, hr⟩ <;> subst hb <;> subst hr <;>
    simp [charMeasure] <;> omega

/-- A one-template registry: template A with a single frame of height 5. -/
def regA : List Template :=
  [⟨("A"), [⟨("fA"), 0, 0, 10, 5⟩]⟩]

/-- A two-template registry: template A with one frame of height 5 and
template B with one frame of height 20. -/
def regAB : List Template :=
  [⟨("A"), [⟨("fA"), 0, 0, 10, 5⟩]⟩, ⟨("B"), [⟨("fB"), 0, 0, 10, 20⟩]⟩]

/-- The atom blocks of a token stream, in order. -/
def atomsOfTokens (l : List Token) : List Block :=
  l.filterMap (fun tk =>
    match tk with
    | .atom b => some b
    | _ => none)

/-- The flow engine itself never raises the EmptyTemplate error: that error
belongs to registration only. -/
theorem flowAux_no_emptyTemplate (M : Measure) (reg : List Template)
    (dflt : String) (bs : List Block) (p : Option String)
    (cur : Option PageState) (r : Bool) (out : List PageState) :
    ∀ e, flowAux M reg dflt bs p cur r out = .error e →
      ∀ n, e ≠ .emptyTemplate n := by
  induction bs, p, cur, r, out using flowAux.induct M reg dflt with
  | case1 p cur r out =>
    intro e heq
    rw [flowAux_nil] at heq
    exact Except.noConfusion heq
  | case2 n rest p cur retried out hn ih =>
    intro e heq
    rw [flowAux_switch_ok _ _ _ _ _ _ _ _ _ hn] at heq
    exact ih e heq
  | case3 n rest p cur retried out hn =>
    intro e heq
    rw [flowAux_switch_err _ _ _ _ _ _ _ _ _
      (Option.not_isSome_iff_eq_none.mp hn)] at heq
    obtain rfl := Except.error.inj heq
    intro n2
    exact FlowError.noConfusion
  | case4 b rest pending r out hb hsp =>
    intro e heq
    rw [flowAux_start_err _ _ _ _ _ _ _ _ (isSwitch_eq_false hb) hsp] at heq
    obtain rfl := Except.error.inj heq
    intro n2
    exact FlowError.noConfusion
  | case5 b rest pending r out hb pg hsp ih =>
    intro e heq
    rw [flowAux_start _ _ _ _ _ _ _ _ _ (isSwitch_eq_false hb) hsp] at heq
    exact ih e heq
  | case6 rest pending pg r out hsp =>
    intro e heq
    rw [flowAux_break_err _ _ _ _ _ _ _ _ hsp] at heq
    obtain rfl := Except.error.inj heq
    intro n2
    exact FlowError.noConfusion
  | case7 rest pending pg r out pg2 hsp ih =>
    intro e heq
    rw [flowAux_break _ _ _ _ _ _ _ _ _ hsp] at heq
    exact ih e heq
  | case8 b rest pending pg out hb hbr hfr =>
    intro e heq
    rw [flowAux_exhaust_retried _ _ _ _ _ _ _ _
      (isSwitch_eq_false hb) (isBreak_eq_false hbr) hfr] at heq
    obtain rfl := Except.error.inj heq
    intro n2
    exact FlowError.noConfusion
  | case9 b rest pending pg retried out hb hbr hfr hret hsp =>
    intro e heq
    have hrf : retried = false := by
      cases retried
      · rfl
      · exact absurd rfl hret
    subst hrf
    rw [flowAux_roll_err _ _ _ _ _ _ _ _
      (isSwitch_eq_false hb) (isBreak_eq_false hbr) hfr hsp] at heq
    obtain rfl := Except.error.inj heq
    intro n2
    exact FlowError.noConfusion
  | case10 b rest pending pg retried out hb hbr hfr hret pg2 hsp ih =>
    intro e heq
    have hrf : retried = false := by
      cases retried
      · rfl
      · exact absurd rfl hret
    subst hrf
    rw [flowAux_roll _ _ _ _ _ _ _ _ _
      (isSwitch_eq_false hb) (isBreak_eq_false hbr) hfr hsp] at heq
    exact ih e heq
  | case11 b rest pending pg retried out hb hbr fr hfr fr2 hpl ih =>
    intro e heq
    rw [flowAux_place _ _ _ _ _ _ _ _ _ _ _
      (isSwitch_eq_false hb) (isBreak_eq_false hbr) hfr hpl] at heq
    exact ih e heq
  | case12 b rest pending pg retried out hb hbr fr hfr hpl fr2 rem hspl ih =>
    intro e heq
    rw [flowAux_split _ _ _ _ _ _ _ _ _ _ _ _
      (isSwitch_eq_false hb) (isBreak_eq_false hbr) hfr hpl hspl] at heq
    exact ih e heq
  | case13 b rest pending pg retried out hb hbr fr hfr hpl hspl ih =>
    intro e heq
    rw [flowAux_advance _ _ _ _ _ _ _ _ _ _
      (isSwitch_eq_false hb) (isBreak_eq_false hbr) hfr hpl hspl] at heq
    exact ih e heq

instance (M : Measure) (T : Template) (b : Block) :
    Decidable (FitsSomeFrame M T b) := by
  unfold FitsSomeFrame
  infer_instance

instance (M : Measure) (reg : List Template) (b : Block) :
    Decidable (FitsAll M reg b) := by
  unfold FitsAll
  infer_instance

instance (M : Measure) (reg : List Template) (b : Block) :
    Decidable (StreamOK M reg b) :=
  match b with
  | .templateSwitch n => inferInstanceAs (Decidable ((findTemplate reg n).isSome = true))
  | .pageBreak => inferInstanceAs (Decidable True)
  | .heading l t s => inferInstanceAs (Decidable (FitsAll M reg (.heading l t s)))
  | .par t s => inferInstanceAs (Decidable (FitsAll M reg (.par t s)))
  | .listB o i s => inferInstanceAs (Decidable (FitsAll M reg (.listB o i s)))
  | .pre t s => inferInstanceAs (Decidable (FitsAll M reg (.pre t s)))
  | .spacer h => inferInstanceAs (Decidable (FitsAll M reg (.spacer h)))

/-! The claims. -/

/-- C1 counterexample: a stream whose single block fits a frame of *some*
registered template (the unused template B) but not of the template that
governs its pages; the engine fails with BlockTooLarge and emits no pages, so
the block does not appear exactly once across emitted pages. -/
theorem c1_counterexample :
    (∀ b ∈ [Block.spacer 10], ∃ T ∈ regAB, FitsSomeFrame charMeasure T b) ∧
    flow charMeasure regAB ("A") [Block.spacer 10] =
      .error (.blockTooLarge (Block.spacer 10)) ∧
    ∀ pages, flow charMeasure regAB ("A") [Block.spacer 10] ≠ .ok pages := by
  have herr : flow charMeasure regAB ("A") [Block.spacer 10] =
      .error (.blockTooLarge (Block.spacer 10)) :=
    flowFuel_sound charMeasure regAB ("A") 20 _ _ _ _ _ _ (by decide)
  refine ⟨by decide, herr, ?_⟩
  intro pages h
  rw [herr] at h
  exact Except.noConfusion h

/-- C1 (amended): for every stream whose template switches are registered and
whose content blocks each fit some frame of *every* registered template,
under a monotone measurement capability and a registered default template the
engine succeeds, and the emitted pages carry exactly the stream's content:
atomic blocks appear exactly once in order, and the fragments of splittable
blocks concatenate, character by character, to the original texts. -/
theorem c1_conservation (M : Measure) (reg : List Template) (dflt : String)
    (blocks : List Block) (hM : SplitMono M)
    (hdflt : (findTemplate reg dflt).isSome = true)
    (hstream : ∀ b ∈ blocks, StreamOK M reg b) :
    ∃ pages, flow M reg dflt blocks = .ok pages ∧
      pagesTokens pages = streamTokens blocks := by
  obtain ⟨pages, hp⟩ := flow_ok M reg dflt blocks hM hdflt hstream
  exact ⟨pages, hp, (flow_conserv M reg dflt blocks pages hp).2⟩

theorem c1_witness :
    ∃ pages, flow charMeasure regAB ("A") [Block.spacer 3, Block.par ("ab") ("s")] =
        .ok pages ∧
      pagesTokens pages = streamTokens [Block.spacer 3, Block.par ("ab") ("s")] :=
  c1_conservation charMeasure regAB ("A") [Block.spacer 3, Block.par ("ab") ("s")]
    charMeasure_splitMono (by decide) (by decide)

/-- C2: a TemplateSwitch directive with a registered name only records the
pending override: the engine state — the page being filled, its frames, the
emitted pages — passes through unchanged and no frame space is consumed; and
when the current page finishes (here through an ExplicitPageBreak) it is
emitted exactly as it was, while the next page starts from the recorded
template. -/
theorem c2_template_switch_deferred :
    ∀ (M : Measure) (reg : List Template) (dflt n : String) (rest : List Block)
      (p : Option String) (cur : Option PageState) (r : Bool) (out : List PageState),
      (findTemplate reg n).isSome = true →
      (flowAux M reg dflt (Block.templateSwitch n :: rest) p cur r out =
        flowAux M reg dflt rest (some n) cur r out) ∧
      (∀ pg pg2, cur = some pg → startPage reg n = some pg2 →
        flowAux M reg dflt (Block.templateSwitch n :: Block.pageBreak :: rest) p cur r out =
          flowAux M reg dflt rest none (some pg2) false (out ++ [pg])) := by
  intro M reg dflt n rest p cur r out hn
  constructor
  · exact flowAux_switch_ok M reg dflt n rest p cur r out hn
  · intro pg pg2 hcur hsp
    subst hcur
    rw [flowAux_switch_ok M reg dflt n _ p _ r out hn]
    exact flowAux_break M reg dflt rest (some n) pg r out pg2 (by simpa using hsp)

theorem c2_witness :
    flowAux charMeasure regAB ("A") [Block.templateSwitch ("B")] none none false [] =
      flowAux charMeasure regAB ("A") [] (some ("B")) none false [] :=
  (c2_template_switch_deferred charMeasure regAB ("A") ("B") [] none none false []
    (by decide)).1

/-- C3: an ExplicitPageBreak finalizes and emits the current page as it is
(whatever capacity remains), starts a new page whose template is the pending
override if set and otherwise the current template, with all frames reset to
full capacity and frame index zero, and clears the override slot; in
particular the stream [P1 (small), ExplicitPageBreak, P2] on a one-frame
template yields exactly two pages with one block each. -/
theorem c3_explicit_page_break :
    (∀ (M : Measure) (reg : List Template) (dflt : String) (rest : List Block)
       (p : Option String) (pg : PageState) (r : Bool) (out : List PageState)
       (pg2 : PageState),
       startPage reg (p.getD pg.templateName) = some pg2 →
       flowAux M reg dflt (Block.pageBreak :: rest) p (some pg) r out =
         flowAux M reg dflt rest none (some pg2) false (out ++ [pg]) ∧
       pg2.templateName = p.getD pg.templateName ∧ pg2.idx = 0 ∧
       (∀ fr ∈ pg2.frames, FrameFresh fr)) ∧
    flow charMeasure regA ("A") [Block.spacer 1, Block.pageBreak, Block.spacer 2] =
      .ok [⟨("A"), [⟨⟨("fA"), 0, 0, 10, 5⟩, 4, [Block.spacer 1]⟩], 0⟩,
           ⟨("A"), [⟨⟨("fA"), 0, 0, 10, 5⟩, 3, [Block.spacer 2]⟩], 0⟩] := by
  constructor
  · intro M reg dflt rest p pg r out pg2 hsp
    obtain ⟨hinv, -, hname, hidx⟩ := startPage_PageInv hsp
    refine ⟨flowAux_break M reg dflt rest p pg r out pg2 hsp, hname, hidx, ?_⟩
    intro fr hm
    obtain ⟨T, hT, hpg2⟩ := startPage_eq_some hsp
    rw [hpg2] at hm
    obtain ⟨f, -, hf⟩ := List.mem_map.mp hm
    exact hf ▸ ⟨rfl, rfl⟩
  · exact flowFuel_sound charMeasure regA ("A") 20 _ _ _ _ _ _ (by decide)

theorem c3_witness :
    flowAux charMeasure regA ("A") [Block.pageBreak] none
        (some ⟨("A"), [⟨⟨("fA"), 0, 0, 10, 5⟩, 4, [Block.spacer 1]⟩], 0⟩) false [] =
      flowAux charMeasure regA ("A") [] none
        (some ⟨("A"), [⟨⟨("fA"), 0, 0, 10, 5⟩, 5, []⟩], 0⟩) false
        [⟨("A"), [⟨⟨("fA"), 0, 0, 10, 5⟩, 4, [Block.spacer 1]⟩], 0⟩] :=
  ((c3_explicit_page_break).1 charMeasure regA ("A") [] none
    ⟨("A"), [⟨⟨("fA"), 0, 0, 10, 5⟩, 4, [Block.spacer 1]⟩], 0⟩ false []
    ⟨("A"), [⟨⟨("fA"), 0, 0, 10, 5⟩, 5, []⟩], 0⟩ (by decide)).1

/-- C4 counterexample: a splittable block (a paragraph) whose measured height
exceeds the height of every frame of every registered template is not a
BlockTooLarge failure: the engine consumes it in fragments across fresh
pages and succeeds. -/
theorem c4_counterexample :
    (∀ T ∈ regA, ∀ f ∈ T.frames,
       (f.height : Int) <
         (charMeasure.height (Block.par ("abcdefg") ("s")) f.width : Int)) ∧
    flow charMeasure regA ("A") [Block.par ("abcdefg") ("s")] =
      .ok [⟨("A"), [⟨⟨("fA"), 0, 0, 10, 5⟩, 0, [Block.par ("abcde") ("s")]⟩], 1⟩,
           ⟨("A"), [⟨⟨("fA"), 0, 0, 10, 5⟩, 3, [Block.par ("fg") ("s")]⟩], 0⟩] := by
  refine ⟨by decide, ?_⟩
  exact flowFuel_sound charMeasure regA ("A") 20 _ _ _ _ _ _ (by decide)

/-- C4 (amended): for every block whose measured height exceeds the height of
every frame of every registered template and that cannot be partially
consumed (no frame can split it), the engine deterministically fails with
BlockTooLarge — it does not loop across fresh-page retries — and returns no
pages, so no partial output is emitted for that block. -/
theorem c4_block_too_large (M : Measure) (reg : List Template) (dflt : String)
    (b : Block) (rest : List Block)
    (hdflt : (findTemplate reg dflt).isSome = true)
    (hb : isSwitch b = false) (hbr : isBreak b = false)
    (hsplit : ∀ fr, trySplit M fr b = none)
    (hbig : ∀ T ∈ reg, ∀ f ∈ T.frames, (f.height : Int) < (M.height b f.width : Int)) :
    flow M reg dflt (b :: rest) = .error (.blockTooLarge b) ∧
    ∀ pages, flow M reg dflt (b :: rest) ≠ .ok pages := by
  obtain ⟨T, hT⟩ := Option.isSome_iff_exists.mp hdflt
  have hsp : startPage reg ((none : Option String).getD dflt) =
      some ⟨dflt, T.frames.map freshFrame, 0⟩ := by
    simp [startPage, hT]
  obtain ⟨⟨hbounds, -, -, hfromreg⟩, -, -, -⟩ := startPage_PageInv hsp
  have herr : flow M reg dflt (b :: rest) = .error (.blockTooLarge b) := by
    rw [flow, flowAux_start M reg dflt b rest none false []
      ⟨dflt, T.frames.map freshFrame, 0⟩ hb hsp]
    exact flowAux_too_large M reg dflt b rest hb hbr hsplit hbig _
      ⟨dflt, T.frames.map freshFrame, 0⟩ [] rfl hfromreg hbounds
  refine ⟨herr, ?_⟩
  intro pages h
  rw [herr] at h
  exact Except.noConfusion h

theorem c4_witness :
    flow charMeasure regA ("A") [Block.spacer 10] =
      .error (.blockTooLarge (Block.spacer 10)) :=
  (c4_block_too_large charMeasure regA ("A") (Block.spacer 10) [] (by decide) rfl rfl
    (fun fr => rfl) (by decide)).1

/-- C5: tryPlace succeeds exactly when the measured height is at most the
remaining height (a block exactly equal to remaining capacity is placed, and
the engine keeps the frame index unchanged — no advancement); on success the
remaining height is decremented by the placed height, the geometry and prior
content are untouched; on failure nothing is placed and the engine merely
advances, leaving the frames unchanged; and in every reachable emitted page
the remaining height of every frame is nonnegative. -/
theorem c5_try_place :
    (∀ (M : Measure) (fr : FrameState) (b : Block),
       (tryPlace M fr b).isSome = true ↔
         (M.height b fr.spec.width : Int) ≤ fr.remaining) ∧
    (∀ (M : Measure) (fr : FrameState) (b : Block) (fr2 : FrameState),
       tryPlace M fr b = some fr2 →
       fr2.remaining = fr.remaining - (M.height b fr.spec.width : Int) ∧
       fr2.spec = fr.spec ∧ fr2.placed = fr.placed ++ [b]) ∧
    (∀ (M : Measure) (reg : List Template) (dflt : String) (b : Block)
       (rest : List Block) (p : Option String) (pg : PageState) (r : Bool)
       (out : List PageState) (fr : FrameState),
       isSwitch b = false → isBreak b = false → pg.frames[pg.idx]? = some fr →
       ((M.height b fr.spec.width : Int) = fr.remaining →
         ∃ fr2, tryPlace M fr b = some fr2 ∧ fr2.remaining = 0 ∧
           (setFrame pg fr2).idx = pg.idx ∧
           flowAux M reg dflt (b :: rest) p (some pg) r out =
             flowAux M reg dflt rest p (some (setFrame pg fr2)) false out) ∧
       (tryPlace M fr b = none → trySplit M fr b = none →
         flowAux M reg dflt (b :: rest) p (some pg) r out =
           flowAux M reg dflt (b :: rest) p
             (some { pg with idx := pg.idx + 1 }) r out)) ∧
    (∀ (M : Measure) (reg : List Template) (dflt : String) (blocks : List Block)
       (pages : List PageState), flow M reg dflt blocks = .ok pages →
       ∀ pg ∈ pages, ∀ fr ∈ pg.frames, 0 ≤ fr.remaining) := by
  refine ⟨?_, ?_, ?_, ?_⟩
  · intro M fr b
    unfold tryPlace
    split <;> simp_all
  · intro M fr b fr2 h
    obtain ⟨hle, hfr2⟩ := tryPlace_eq_some h
    exact ⟨by rw [hfr2], by rw [hfr2], by rw [hfr2]⟩
  · intro M reg dflt b rest p pg r out fr hb hbr hfr
    constructor
    · intro heq
      have hsome : tryPlace M fr b =
          some { fr with remaining := fr.remaining - (M.height b fr.spec.width : Int),
                         placed := fr.placed ++ [b] } := by
        unfold tryPlace
        rw [if_pos (le_of_eq heq)]
      refine ⟨_, hsome, ?_, rfl, ?_⟩
      · show fr.remaining - (M.height b fr.spec.width : Int) = 0
        omega
      · exact flowAux_place M reg dflt b rest p pg r out fr _ hb hbr hfr hsome
    · intro hpl hspl
      exact flowAux_advance M reg dflt b rest p pg r out fr hb hbr hfr hpl hspl
  · intro M reg dflt blocks pages h pg hm fr hfm
    obtain ⟨hinv, -⟩ := flow_conserv M reg dflt blocks pages h
    exact ((hinv pg hm).1 fr hfm).1

theorem c5_witness :
    (tryPlace charMeasure (freshFrame ⟨("fA"), 0, 0, 10, 5⟩)
      (Block.spacer 5)).isSome = true :=
  ((c5_try_place).1 charMeasure (freshFrame ⟨("fA"), 0, 0, 10, 5⟩)
    (Block.spacer 5)).mpr (by decide)

/-- C6: on every successful flow, content is placed into the frames of each
emitted page strictly in registration order: concatenating each page's frames
in registration order reproduces the input stream's content in its original
order (so nothing is placed in a later frame ahead of stream content destined
for an earlier frame), the final frame index never exceeds the frame count,
and every frame beyond the final index is completely untouched — full
capacity, nothing placed. The fill order is fixed and deterministic: it is
the registered template's frame list order. -/
theorem c6_fill_order (M : Measure) (reg : List Template) (dflt : String)
    (blocks : List Block) (pages : List PageState)
    (h : flow M reg dflt blocks = .ok pages) :
    pagesTokens pages = streamTokens blocks ∧
    ∀ pg ∈ pages, pg.idx ≤ pg.frames.length ∧
      ∀ k, pg.idx < k → ∀ fr, pg.frames[k]? = some fr → FrameFresh fr := by
  obtain ⟨hinv, htok⟩ := flow_conserv M reg dflt blocks pages h
  refine ⟨htok, fun pg hm => ?_⟩
  obtain ⟨-, hsf, hlen, -⟩ := hinv pg hm
  exact ⟨hlen, hsf⟩

theorem c6_witness :
    pagesTokens [⟨("A"), [⟨⟨("fA"), 0, 0, 10, 5⟩, 2, [Block.spacer 3]⟩], 0⟩] =
      streamTokens [Block.spacer 3] :=
  (c6_fill_order charMeasure regA ("A") [Block.spacer 3]
    [⟨("A"), [⟨⟨("fA"), 0, 0, 10, 5⟩, 2, [Block.spacer 3]⟩], 0⟩]
    (flowFuel_sound charMeasure regA ("A") 20 _ _ _ _ _ _ (by decide))).1

/-- C7: only Paragraph and Preformatted blocks can be split — a successful
trySplit forces the block to be one of them; on every successful flow the
atomic blocks (headings, lists, spacers) of the output are exactly, in order,
the atomic blocks of the input, never divided; and a list that does not fit
the remaining space of the current frame moves to the next frame in its
entirety — the engine advances without placing any part of it. -/
theorem c7_split_only_par_pre :
    (∀ (M : Measure) (fr : FrameState) (b : Block) (res : FrameState × Block),
       trySplit M fr b = some res → ∃ t s, b = .par t s ∨ b = .pre t s) ∧
    (∀ (M : Measure) (reg : List Template) (dflt : String) (blocks : List Block)
       (pages : List PageState), flow M reg dflt blocks = .ok pages →
       atomsOfTokens (pagesTokens pages) = atomsOfTokens (streamTokens blocks)) ∧
    (∀ (M : Measure) (reg : List Template) (dflt : String) (o : Bool)
       (items : List (String × String)) (st : String) (rest : List Block)
       (p : Option String) (pg : PageState) (r : Bool) (out : List PageState)
       (fr : FrameState),
       pg.frames[pg.idx]? = some fr →
       tryPlace M fr (Block.listB o items st) = none →
       flowAux M reg dflt (Block.listB o items st :: rest) p (some pg) r out =
         flowAux M reg dflt (Block.listB o items st :: rest) p
           (some { pg with idx := pg.idx + 1 }) r out) := by
  refine ⟨?_, ?_, ?_⟩
  · intro M fr b res h
    obtain ⟨fr2, rem⟩ := res
    obtain ⟨t, s, c, r, ch, -, -, -, hcase⟩ := trySplit_eq_some h
    rcases hcase with ⟨hb, -⟩ | ⟨hb, -⟩
    · exact ⟨t, s, Or.inl hb⟩
    · exact ⟨t, s, Or.inr hb⟩
  · intro M reg dflt blocks pages h
    rw [(flow_conserv M reg dflt blocks pages h).2]
  · intro M reg dflt o items st rest p pg r out fr hfr hpl
    exact flowAux_advance M reg dflt (Block.listB o items st) rest p pg r out fr
      rfl rfl hfr hpl rfl

theorem c7_witness :
    flowAux charMeasure regA ("A") [Block.listB false [] ("s")] none
        (some ⟨("A"), [⟨⟨("fA"), 0, 0, 10, 5⟩, 0, []⟩], 0⟩) false [] =
      flowAux charMeasure regA ("A") [Block.listB false [] ("s")] none
        (some ⟨("A"), [⟨⟨("fA"), 0, 0, 10, 5⟩, 0, []⟩], 1⟩) false [] :=
  (c7_split_only_par_pre).2.2 charMeasure regA ("A") false [] ("s") [] none
    ⟨("A"), [⟨⟨("fA"), 0, 0, 10, 5⟩, 0, []⟩], 0⟩ false []
    ⟨⟨("fA"), 0, 0, 10, 5⟩, 0, []⟩ (by decide) (by decide)

/-- C8: registering a template list containing a template with zero frames
fails at registration time with EmptyTemplate; the whole pipeline then fails
with EmptyTemplate before any flow processing, for every measure and every
block stream; registration succeeds when every template has frames; and the
flow engine itself can never raise EmptyTemplate — that error exists only at
registration time. -/
theorem c8_empty_template :
    (∀ ts : List Template, ∀ t ∈ ts, t.frames = [] →
       ∃ t2 ∈ ts, t2.frames = [] ∧
         registerTemplates ts = .error (.emptyTemplate t2.name)) ∧
    (∀ (ts : List Template) (M : Measure) (dflt : String) (blocks : List Block),
       (∃ t ∈ ts, t.frames = []) →
       ∃ name, buildDocument M ts dflt blocks = .error (.emptyTemplate name)) ∧
    (∀ ts : List Template, (∀ t ∈ ts, t.frames ≠ []) →
       registerTemplates ts = .ok ts) ∧
    (∀ (M : Measure) (reg : List Template) (dflt : String) (blocks : List Block)
       (e : FlowError), flow M reg dflt blocks = .error e →
       ∀ n, e ≠ .emptyTemplate n) := by
  have h1 : ∀ ts : List Template, ∀ t ∈ ts, t.frames = [] →
      ∃ t2 ∈ ts, t2.frames = [] ∧
        registerTemplates ts = .error (.emptyTemplate t2.name) := by
    intro ts t ht htf
    cases hf : ts.find? (fun t2 => t2.frames.isEmpty) with
    | none =>
      exfalso
      have := List.find?_eq_none.mp hf t ht
      simp [htf] at this
    | some t2 =>
      have hmem := List.mem_of_find?_eq_some hf
      have hp := List.find?_some hf
      refine ⟨t2, hmem, by simpa using hp, ?_⟩
      unfold registerTemplates
      rw [hf]
  refine ⟨h1, ?_, ?_, ?_⟩
  · intro ts M dflt blocks hex
    obtain ⟨t, ht, htf⟩ := hex
    obtain ⟨t2, -, -, hreg⟩ := h1 ts t ht htf
    refine ⟨t2.name, ?_⟩
    unfold buildDocument
    rw [hreg]
  · intro ts h
    unfold registerTemplates
    rw [List.find?_eq_none.mpr]
    intro t ht
    simpa using h t ht
  · intro M reg dflt blocks e h n
    exact flowAux_no_emptyTemplate M reg dflt blocks none none false [] e h n

theorem c8_witness :
    ∃ t2 ∈ [(⟨("Empty"), []⟩ : Template)], t2.frames = [] ∧
      registerTemplates [(⟨("Empty"), []⟩ : Template)] =
        .error (.emptyTemplate t2.name) :=
  (c8_empty_template).1 [⟨("Empty"), []⟩] ⟨("Empty"), []⟩ (by decide) rfl

set_option maxRecDepth 10000 in
/-- C9: in the element list that `main` builds, every subsection whose title
ends with "_list" contributes no subheading paragraph — only the list
flowable built from its items in order — and every other subsection
contributes its title as a subheading paragraph followed by one body
paragraph per paragraph chunk of its string content, in dictionary
(insertion) order. -/
theorem c9_subsection_elements :
    ∀ q ∈ allSubsections, subsectionElements q.1 q.2 = subsectionExpected q.1 q.2 := by
  decide

set_option maxRecDepth 10000 in
theorem c9_witness :
    subsectionElements (allSubsections.get ⟨1, by decide⟩).1
        (allSubsections.get ⟨1, by decide⟩).2 =
      subsectionExpected (allSubsections.get ⟨1, by decide⟩).1
        (allSubsections.get ⟨1, by decide⟩).2 :=
  c9_subsection_elements _ (by decide)

/-- C10: of the five frames registered by TwoColumnTemplate on a letter page,
the first page's left column is the only frame whose top edge exceeds the
page: its y origin (one inch) plus its height (page height minus 0.40 inch)
equals the page height plus 0.6 inch — exactly 43.2 points above the top —
while the other four frames lie within the page bounds. -/
theorem c10_frame_geometry :
    first_page_col1.y + first_page_col1.height = letterHeight + 0.6 * inch ∧
    (0.6 : Rat) * inch = 43.2 ∧
    letterHeight < first_page_col1.y + first_page_col1.height ∧
    withinPage first_page_col2 ∧ withinPage content_col1 ∧
    withinPage content_col2 ∧ withinPage appendix_frame := by
  refine ⟨?_, ?_, ?_, ?_, ?_, ?_, ?_⟩ <;>
    norm_num [first_page_col1, first_page_col2, content_col1, content_col2,
      appendix_frame, withinPage, inch, letterWidth, letterHeight]

end ToolPre
